import Mathlib

/-!
Shallow embedding of `src/compiler.rs` of `markdown-rs`: the back-end pass
that turns a stream of tokenizer events into a string of HTML.

The compiler itself (context, buffer stack, handlers, two-pass driver) is
translated from the source.  Its collaborators (tokenizer output shape,
`encode`, `sanitize_uri`, `normalize_identifier`, the decode tables, the
span/skip utilities and the protocol constants) live outside the compiler
source; those definitions are modelled from the specification's contracts
and carry a `Modelled from the spec:` doc comment.

Code that can panic in the source (`unwrap`, `expect`, asserts, out of
bounds indexing) is embedded with `Option`: `none` is a panic.
-/

set_option linter.unusedVariables false
set_option linter.unreachableTactic false
set_option linter.unusedTactic false

/-- Phase of a tokenizer event. -/
inductive EventType where
  | enter
  | exit
  deriving DecidableEq

/-- Token kinds that the compiler dispatches on (the source's `Token` enum,
restricted to the kinds the compiler mentions plus a few inert kinds that
may appear in event streams; unlisted kinds are no-ops in the switches). -/
inductive Token where
  | autolinkEmail
  | autolinkProtocol
  | blankLineEnding
  | blockQuote
  | blockQuotePrefixTok
  | characterEscapeValue
  | characterReferenceMarker
  | characterReferenceMarkerHexadecimal
  | characterReferenceMarkerNumeric
  | characterReferenceValue
  | codeFenced
  | codeFencedFence
  | codeFencedFenceInfo
  | codeFencedFenceMeta
  | codeFencedFenceSequence
  | codeFlowChunk
  | codeIndented
  | codeText
  | codeTextData
  | codeTextSequence
  | data
  | definition
  | definitionDestinationString
  | definitionLabelString
  | definitionMarker
  | definitionTitleString
  | emphasis
  | hardBreakEscape
  | hardBreakTrailing
  | headingAtx
  | headingAtxSequence
  | headingAtxText
  | headingSetextText
  | headingSetextUnderline
  | htmlFlow
  | htmlFlowData
  | htmlText
  | htmlTextData
  | image
  | label
  | labelMarker
  | labelText
  | lineEnding
  | link
  | listItem
  | listItemMarker
  | listItemPrefixTok
  | listItemValue
  | listOrdered
  | listUnordered
  | paragraph
  | reference
  | referenceMarker
  | referenceString
  | resource
  | resourceDestinationString
  | resourceMarker
  | resourceTitleString
  | spaceOrTab
  | strong
  | thematicBreak
  deriving DecidableEq

/-- Modelled from the spec: one source code point (`Char`, a virtual space
from tab expansion, a newline of one of the three styles, or end of file). -/
inductive Code where
  | char (c : Char)
  | virtualSpace
  | cr
  | lf
  | crlf
  | eof
  deriving DecidableEq

/-- Modelled from the spec: an event is a phase, a token kind and a span
over the code point array; this embedding stores the span on the event. -/
structure Event where
  event_type : EventType
  token_type : Token
  start : Nat
  stop : Nat
  deriving DecidableEq

/-- Line ending styles. -/
inductive LineEnding where
  | carriageReturnLineFeed
  | carriageReturn
  | lineFeed
  deriving DecidableEq

/-- Text of a line ending style. -/
def LineEnding.as_str (le : LineEnding) : String :=
  match le with
  | .carriageReturnLineFeed => "\r\n"
  | .carriageReturn => "\r"
  | .lineFeed => "\n"

/-- Modelled from the spec: classify the first code point of a line ending
span (`\n` to line feed, `\r\n` to carriage return + line feed, `\r` to
carriage return); any other code point cannot start a line ending. -/
def LineEnding.from_code (c : Code) : Option LineEnding :=
  match c with
  | .crlf => some .carriageReturnLineFeed
  | .cr => some .carriageReturn
  | .lf => some .lineFeed
  | .char '\r' => some .carriageReturn
  | .char '\n' => some .lineFeed
  | _ => none

/-- Compiler options. -/
structure Options where
  allow_dangerous_html : Bool
  allow_dangerous_protocol : Bool
  default_line_ending : LineEnding
  deriving DecidableEq

/-- The default options: everything safe, line feed line endings. -/
def Options.default : Options :=
  { allow_dangerous_html := false,
    allow_dangerous_protocol := false,
    default_line_ending := LineEnding.lineFeed }

/-- Modelled from the spec: HTML encoding of one character (`&`, `"`, `<`
and `>` become character references, everything else is untouched). -/
def encodeChar (ch : Char) : String :=
  if ch == '&' then "&amp;"
  else if ch == '"' then "&quot;"
  else if ch == '<' then "&lt;"
  else if ch == '>' then "&gt;"
  else String.singleton ch

/-- Modelled from the spec: `encode` replaces the characters that are unsafe
in HTML text with character references. -/
def encode (s : String) : String :=
  s.data.foldl (fun acc ch => acc ++ encodeChar ch) ""

/-- Modelled from the spec: the characters `sanitize_uri` leaves as they
are; everything else is percent-encoded. -/
def urlSafe (ch : Char) : Bool :=
  ch.isAlphanum ||
    ['!', '#', '$', '%', '&', '\'', '(', ')', '*', '+', ',', '-', '.', '/',
     ':', ';', '=', '?', '@', '_', '~'].contains ch

/-- Uppercase hexadecimal digit of a value below 16. -/
def hexDigit (n : Nat) : Char :=
  if n < 10 then Char.ofNat (48 + n) else Char.ofNat (55 + n)

/-- Modelled from the spec: the UTF-8 bytes of a code point, by value. -/
def utf8Bytes (n : Nat) : List Nat :=
  if n < 128 then [n]
  else if n < 2048 then [192 + n / 64, 128 + n % 64]
  else if n < 65536 then [224 + n / 4096, 128 + (n / 64) % 64, 128 + n % 64]
  else [240 + n / 262144, 128 + (n / 4096) % 64, 128 + (n / 64) % 64, 128 + n % 64]

/-- Percent-encode one byte. -/
def percentByte (b : Nat) : String :=
  "%" ++ String.singleton (hexDigit (b / 16 % 16)) ++ String.singleton (hexDigit (b % 16))

/-- Modelled from the spec: percent-encode one character when it is unsafe
in a url. -/
def percentEncodeChar (ch : Char) : String :=
  if urlSafe ch then String.singleton ch
  else String.join ((utf8Bytes ch.toNat).map percentByte)

/-- Percent-encode a list of characters. -/
def normalize_uri_chars : List Char → String
  | [] => ""
  | ch :: rest => percentEncodeChar ch ++ normalize_uri_chars rest

/-- Modelled from the spec: the percent-encoding pass of `sanitize_uri`. -/
def normalize_uri (s : String) : String :=
  normalize_uri_chars s.data

/-- The scheme characters of a url: the characters before the first `:`,
provided no `/`, `?` or `#` occurs before it. -/
def urlSchemeChars : List Char → Option (List Char)
  | [] => none
  | ch :: rest =>
    if ch == ':' then some []
    else if ch == '/' || ch == '?' || ch == '#' then none
    else (urlSchemeChars rest).map (fun l => ch :: l)

/-- Modelled from the spec: the scheme of a url, when it has one. -/
def urlScheme (s : String) : Option String :=
  (urlSchemeChars s.data).map String.mk

/-- Modelled from the spec: `sanitize_uri` percent-encodes unsafe
characters; when given an allow-list it replaces a url whose scheme is not
listed with the empty string, and `none` disables the scheme check. -/
def sanitize_uri (value : String) (protocols : Option (List String)) : String :=
  let result := normalize_uri value
  match protocols with
  | none => result
  | some ps =>
    match urlScheme value with
    | none => result
    | some scheme => if ps.contains scheme then result else ""

/-- Modelled from the spec: the allow-list for `href` attributes. -/
def SAFE_PROTOCOL_HREF : List String :=
  ["http", "https", "irc", "ircs", "mailto", "xmpp"]

/-- Modelled from the spec: the allow-list for `src` attributes. -/
def SAFE_PROTOCOL_SRC : List String :=
  ["http", "https"]

/-- Modelled from the spec: whitespace for identifier normalization. -/
def isWhite (ch : Char) : Bool :=
  ch == ' ' || ch == '\t' || ch == '\n' || ch == '\r'

/-- Split a character list on whitespace (the split pieces, in order; empty
pieces arise from leading, trailing or repeated whitespace). -/
def splitWhiteAux : List Char → List Char → List (List Char)
  | [], acc => [acc.reverse]
  | ch :: rest, acc =>
    if isWhite ch then acc.reverse :: splitWhiteAux rest []
    else splitWhiteAux rest (ch :: acc)

/-- Join words with single spaces. -/
def joinWords : List (List Char) → List Char
  | [] => []
  | [w] => w
  | w :: ws => w ++ ' ' :: joinWords ws

/-- Modelled from the spec: `normalize_identifier` case-folds, collapses
internal whitespace runs to single spaces and trims. -/
def normalize_identifier (s : String) : String :=
  String.mk
    (joinWords
      ((splitWhiteAux (s.data.map Char.toLower) []).filter (fun w => !w.isEmpty)))

/-- Modelled from the spec: a named character reference table (a miss yields
the literal source text back). -/
def decode_named (name : String) : String :=
  match [("amp", "&"), ("copy", "©"), ("gt", ">"), ("lt", "<"),
         ("quot", "\"")].find? (fun p => p.1 == name) with
  | some p => p.2
  | none => "&" ++ name ++ ";"

/-- Value of one digit in the given base, when valid. -/
def digitValue (base : Nat) (ch : Char) : Option Nat :=
  let v :=
    if ch.isDigit then some (ch.toNat - 48)
    else if 'a' ≤ ch && ch ≤ 'f' then some (ch.toNat - 87)
    else if 'A' ≤ ch && ch ≤ 'F' then some (ch.toNat - 55)
    else none
  match v with
  | some d => if d < base then some d else none
  | none => none

/-- Parse an unsigned integer in the given base. -/
def parseRadix (base : Nat) (s : String) : Option Nat :=
  s.data.foldl
    (fun acc ch => acc.bind (fun n => (digitValue base ch).map (fun d => n * base + d)))
    (some 0)

/-- Modelled from the spec: numeric character reference decoding; values
out of range or not allowed yield U+FFFD. -/
def decode_numeric (s : String) (base : Nat) : String :=
  match parseRadix base s with
  | some n =>
    if n ≠ 0 ∧ Nat.isValidChar n then String.singleton (Char.ofNat n) else "�"
  | none => "�"

/-- Modelled from the spec: one code point rendered back to source text. -/
def codeToString (c : Code) : String :=
  match c with
  | .char ch => String.singleton ch
  | .virtualSpace => " "
  | .cr => "\r"
  | .lf => "\n"
  | .crlf => "\r\n"
  | .eof => ""

/-- Modelled from the spec: the code points of a span. -/
def codes_from_span (codes : List Code) (span : Nat × Nat) : List Code :=
  (codes.drop span.1).take (span.2 - span.1)

/-- Modelled from the spec: `serialize` renders a span back to text. -/
def serialize (codes : List Code) (span : Nat × Nat) : String :=
  (codes_from_span codes span).foldl (fun acc c => acc ++ codeToString c) ""

/-- Modelled from the spec: the span of the construct closed by the exit
event at `index`; this embedding stores the span on the event itself. -/
def from_exit_event (events : List Event) (index : Nat) : Nat × Nat :=
  match events[index]? with
  | some e => (e.start, e.stop)
  | none => (0, 0)

/-- Modelled from the spec: `skip::opt_back` walks backwards from `index`
while the token there is one of `kinds`. -/
def skip_opt_back (events : List Event) (index : Nat) (kinds : List Token) : Nat :=
  match events[index]? with
  | none => index
  | some e =>
    if kinds.contains e.token_type then
      match index with
      | 0 => 0
      | i + 1 => skip_opt_back events i kinds
    else index

/-- Kind of a character reference. -/
inductive CharacterReferenceKind where
  | named
  | decimal
  | hexadecimal
  deriving DecidableEq

/-- Representation of a link or image, resource or reference; reused for
definitions in the first pass. -/
structure Media where
  image : Bool
  label_id : Option String
  label : Option String
  reference_id : Option String
  destination : Option String
  title : Option String
  deriving DecidableEq

/-- Representation of a definition. -/
structure Definition where
  destination : Option String
  title : Option String
  deriving DecidableEq

/-- Context used to compile markdown.  The immutable `events` and `codes`
views are passed to the handlers directly in this embedding; everything
mutable lives here. -/
structure CompileContext where
  atx_opening_sequence_size : Option Nat
  heading_setext_buffer : Option String
  code_flow_seen_data : Option Bool
  code_fenced_fences_count : Option Nat
  code_text_inside : Bool
  character_reference_kind : Option CharacterReferenceKind
  expect_first_item : Option Bool
  media_stack : List Media
  definitions : List (String × Definition)
  tight_stack : List Bool
  slurp_one_line_ending : Bool
  tags : Bool
  ignore_encode : Bool
  last_was_tag : Bool
  protocol_href : Option (List String)
  protocol_src : Option (List String)
  line_ending_default : LineEnding
  allow_dangerous_html : Bool
  buffers : List String
  index : Nat
  deriving DecidableEq

/-- Create a new compile context. -/
def CompileContext.new (options : Options) (line_ending : LineEnding) : CompileContext :=
  { atx_opening_sequence_size := none,
    heading_setext_buffer := none,
    code_flow_seen_data := none,
    code_fenced_fences_count := none,
    code_text_inside := false,
    character_reference_kind := none,
    expect_first_item := none,
    media_stack := [],
    definitions := [],
    tight_stack := [],
    slurp_one_line_ending := false,
    tags := true,
    ignore_encode := false,
    last_was_tag := false,
    protocol_href :=
      if options.allow_dangerous_protocol then none else some SAFE_PROTOCOL_HREF,
    protocol_src :=
      if options.allow_dangerous_protocol then none else some SAFE_PROTOCOL_SRC,
    line_ending_default := line_ending,
    allow_dangerous_html := options.allow_dangerous_html,
    buffers := [""],
    index := 0 }

/-- Push a buffer (the head of `buffers` is the top of the stack; the last
element is the bottom buffer holding the final HTML). -/
def CompileContext.buffer (c : CompileContext) : CompileContext :=
  { c with buffers := "" :: c.buffers }

/-- Pop a buffer, returning its value; popping with no buffer is fatal. -/
def CompileContext.resume (c : CompileContext) : Option (String × CompileContext) :=
  match c.buffers with
  | [] => none
  | b :: rest => some (b, { c with buffers := rest })

/-- Append to the top buffer; appending with no buffer is fatal. -/
def CompileContext.push (c : CompileContext) (value : String) : Option CompileContext :=
  match c.buffers with
  | [] => none
  | b :: rest => some { c with buffers := (b ++ value) :: rest, last_was_tag := false }

/-- Append, HTML-encoding the value unless `ignore_encode` is set. -/
def CompileContext.push_raw (c : CompileContext) (value : String) : Option CompileContext :=
  if c.ignore_encode then c.push value else c.push (encode value)

/-- Append a structural tag, unless `tags` is off. -/
def CompileContext.tag (c : CompileContext) (value : String) : Option CompileContext :=
  if c.tags then (c.push value).map (fun c => { c with last_was_tag := true })
  else some c

/-- Append the default line ending. -/
def CompileContext.line_ending (c : CompileContext) : Option CompileContext :=
  c.push c.line_ending_default.as_str

/-- Whether a buffer needs a line ending before block output: it is
non-empty and does not already end in a line ending character. -/
def needsEol (s : String) : Bool :=
  match s.data.getLast? with
  | some '\n' => false
  | some '\r' => false
  | some _ => true
  | none => false

/-- Append a line ending unless the top buffer is empty or already ends in
one. -/
def CompileContext.line_ending_if_needed (c : CompileContext) : Option CompileContext :=
  match c.buffers with
  | [] => none
  | b :: _ => if needsEol b then c.line_ending else some c

/-- The first definition stored for an identifier (the lookup loop of
`on_exit_media`). -/
def defLookup (defs : List (String × Definition)) (id : String) : Option Definition :=
  (defs.find? (fun d => d.1 == id)).map (fun d => d.2)

/-- Mutate the innermost media (`media_stack.last_mut().unwrap()`). -/
def CompileContext.withTopMedia (c : CompileContext) (f : Media → Media) : Option CompileContext :=
  match c.media_stack with
  | [] => none
  | m :: rest => some { c with media_stack := f m :: rest }

/-- An empty media record. -/
def emptyMedia (image : Bool) : Media :=
  { image := image, label_id := none, label := none, reference_id := none,
    destination := none, title := none }

/-- Handle the enter of a buffered construct: push a buffer. -/
def on_enter_buffer (c : CompileContext) : Option CompileContext :=
  some c.buffer

/-- Handle the enter of a block quote. -/
def on_enter_block_quote (c : CompileContext) : Option CompileContext :=
  (CompileContext.line_ending_if_needed { c with tight_stack := false :: c.tight_stack }).bind
    (fun c => c.tag "<blockquote>")

/-- Handle the enter of indented code. -/
def on_enter_code_indented (c : CompileContext) : Option CompileContext :=
  (CompileContext.line_ending_if_needed { c with code_flow_seen_data := some false }).bind
    (fun c => c.tag "<pre><code>")

/-- Handle the enter of fenced code (no closing `>` yet). -/
def on_enter_code_fenced (c : CompileContext) : Option CompileContext :=
  ((CompileContext.line_ending_if_needed { c with code_flow_seen_data := some false }).bind
    (fun c => c.tag "<pre><code")).map
    (fun c => { c with code_fenced_fences_count := some 0 })

/-- Handle the enter of code text. -/
def on_enter_code_text (c : CompileContext) : Option CompileContext :=
  (CompileContext.tag { c with code_text_inside := true } "<code>").map
    (fun c => c.buffer)

/-- Handle the enter of a definition. -/
def on_enter_definition (c : CompileContext) : Option CompileContext :=
  let c := c.buffer
  some { c with media_stack := emptyMedia false :: c.media_stack }

/-- Handle the enter of a definition destination string. -/
def on_enter_definition_destination_string (c : CompileContext) : Option CompileContext :=
  some { c.buffer with ignore_encode := true }

/-- Handle the enter of emphasis. -/
def on_enter_emphasis (c : CompileContext) : Option CompileContext :=
  c.tag "<em>"

/-- Handle the enter of flow HTML. -/
def on_enter_html_flow (c : CompileContext) : Option CompileContext :=
  (c.line_ending_if_needed).map
    (fun c => if c.allow_dangerous_html then { c with ignore_encode := true } else c)

/-- Handle the enter of text HTML. -/
def on_enter_html_text (c : CompileContext) : Option CompileContext :=
  some (if c.allow_dangerous_html then { c with ignore_encode := true } else c)

/-- Handle the enter of an image: push a media, disallow tags. -/
def on_enter_image (c : CompileContext) : Option CompileContext :=
  some { c with media_stack := emptyMedia true :: c.media_stack, tags := false }

/-- Handle the enter of a link: push a media. -/
def on_enter_link (c : CompileContext) : Option CompileContext :=
  some { c with media_stack := emptyMedia false :: c.media_stack }

/-- The forward scan of `on_enter_list` deciding whether the list is loose:
a blank line at shallow nesting makes it loose, except directly after a
list item marker, between items, or after an empty item. -/
def listLooseScan (events : List Event) (tt : Token) : Nat → Int → Nat → Bool
  | 0, _, _ => false
  | fuel + 1, balance, index =>
    match events[index]? with
    | none => false
    | some event =>
      if event.event_type == EventType.enter then
        listLooseScan events tt fuel (balance + 1) (index + 1)
      else
        let balance := balance - 1
        if balance < 3 && event.token_type == Token.blankLineEnding then
          let at_marker :=
            balance == 2 &&
              ((events[skip_opt_back events (index - 2)
                  [Token.blankLineEnding, Token.spaceOrTab]]?).map Event.token_type
                == some Token.listItemPrefixTok)
          let at_list_item :=
            balance == 1 &&
              ((events[index - 2]?).map Event.token_type == some Token.listItem)
          let at_empty_list_item :=
            if at_list_item then
              let before_item := skip_opt_back events (index - 2) [Token.listItem]
              let before_prefix :=
                skip_opt_back events (index - 3) [Token.listItemPrefixTok, Token.spaceOrTab]
              before_item + 1 == before_prefix
            else false
          if !at_marker && !at_list_item && !at_empty_list_item then true
          else if balance == 0 && event.token_type == tt then false
          else listLooseScan events tt fuel balance (index + 1)
        else if balance == 0 && event.token_type == tt then false
        else listLooseScan events tt fuel balance (index + 1)

/-- Handle the enter of a list (looseness scan, `<ol` or `<ul` with no
closing `>` yet). -/
def on_enter_list (events : List Event) (c : CompileContext) : Option CompileContext :=
  match events[c.index]? with
  | none => none
  | some e0 =>
    let token_type := e0.token_type
    let loose := listLooseScan events token_type (events.length + 1) 0 c.index
    ((CompileContext.line_ending_if_needed
        { c with tight_stack := (!loose) :: c.tight_stack }).bind
      (fun c => c.tag (if token_type == Token.listOrdered then "<ol" else "<ul"))).map
      (fun c => { c with expect_first_item := some true })

/-- Handle the enter of a list item marker. -/
def on_enter_list_item_marker (c : CompileContext) : Option CompileContext :=
  match c.expect_first_item with
  | none => none
  | some expect_first_item =>
    let c := { c with expect_first_item := none }
    (((if expect_first_item then c.tag ">" else some c).bind
      (fun c => c.line_ending_if_needed)).bind
      (fun c => c.tag "<li>")).map
      (fun c => { c with expect_first_item := some false, last_was_tag := false })

/-- Handle the enter of a paragraph: nothing when the list context is
tight. -/
def on_enter_paragraph (c : CompileContext) : Option CompileContext :=
  let tight := c.tight_stack.headD false
  if !tight then (c.line_ending_if_needed).bind (fun c => c.tag "<p>")
  else some c

/-- Handle the enter of a resource: a buffer for the stray content, and an
empty destination on the media. -/
def on_enter_resource (c : CompileContext) : Option CompileContext :=
  CompileContext.withTopMedia c.buffer (fun m => { m with destination := some "" })

/-- Handle the enter of a resource destination string. -/
def on_enter_resource_destination_string (c : CompileContext) : Option CompileContext :=
  some { c.buffer with ignore_encode := true }

/-- Handle the enter of strong. -/
def on_enter_strong (c : CompileContext) : Option CompileContext :=
  c.tag "<strong>"

/-- Handle the exit of an email autolink. -/
def on_exit_autolink_email (events : List Event) (codes : List Code)
    (c : CompileContext) : Option CompileContext :=
  let slice := serialize codes (from_exit_event events c.index)
  ((c.tag ("<a href=\"" ++ sanitize_uri ("mailto:" ++ slice) c.protocol_href ++ "\">")).bind
    (fun c => c.push_raw slice)).bind
    (fun c => c.tag "</a>")

/-- Handle the exit of a protocol autolink. -/
def on_exit_autolink_protocol (events : List Event) (codes : List Code)
    (c : CompileContext) : Option CompileContext :=
  let slice := serialize codes (from_exit_event events c.index)
  ((c.tag ("<a href=\"" ++ sanitize_uri slice c.protocol_href ++ "\">")).bind
    (fun c => c.push_raw slice)).bind
    (fun c => c.tag "</a>")

/-- Handle the exit of a hard break. -/
def on_exit_break (c : CompileContext) : Option CompileContext :=
  c.tag "<br />"

/-- Handle the exit of a blank line ending. -/
def on_exit_blank_line_ending (events : List Event) (c : CompileContext) :
    Option CompileContext :=
  if c.index == events.length - 1 then c.line_ending_if_needed else some c

/-- Handle the exit of a block quote. -/
def on_exit_block_quote (c : CompileContext) : Option CompileContext :=
  (CompileContext.line_ending_if_needed { c with tight_stack := c.tight_stack.tail }).bind
    (fun c => CompileContext.tag { c with slurp_one_line_ending := false } "</blockquote>")

/-- Handle the exit of a named character reference marker. -/
def on_exit_character_reference_marker (c : CompileContext) : Option CompileContext :=
  some { c with character_reference_kind := some CharacterReferenceKind.named }

/-- Handle the exit of a hexadecimal character reference marker. -/
def on_exit_character_reference_marker_hexadecimal (c : CompileContext) :
    Option CompileContext :=
  some { c with character_reference_kind := some CharacterReferenceKind.hexadecimal }

/-- Handle the exit of a decimal character reference marker. -/
def on_exit_character_reference_marker_numeric (c : CompileContext) :
    Option CompileContext :=
  some { c with character_reference_kind := some CharacterReferenceKind.decimal }

/-- Handle the exit of a character reference value. -/
def on_exit_character_reference_value (events : List Event) (codes : List Code)
    (c : CompileContext) : Option CompileContext :=
  match c.character_reference_kind with
  | none => none
  | some kind =>
    let c := { c with character_reference_kind := none }
    let reference := serialize codes (from_exit_event events c.index)
    let value :=
      match kind with
      | .decimal => decode_numeric reference 10
      | .hexadecimal => decode_numeric reference 16
      | .named => decode_named reference
    c.push_raw value

/-- Handle the exit of a code flow chunk. -/
def on_exit_code_flow_chunk (events : List Event) (codes : List Code)
    (c : CompileContext) : Option CompileContext :=
  CompileContext.push_raw { c with code_flow_seen_data := some true }
    (serialize codes (from_exit_event events c.index))

/-- Handle the exit of a code fence: the first fence closes the opening tag
and slurps the following line ending. -/
def on_exit_code_fenced_fence (c : CompileContext) : Option CompileContext :=
  let count := c.code_fenced_fences_count.getD 0
  ((if count == 0 then
      (c.tag ">").map (fun c => { c with slurp_one_line_ending := true })
    else some c)).map
    (fun c => { c with code_fenced_fences_count := some (count + 1) })

/-- Handle the exit of code fence info. -/
def on_exit_code_fenced_fence_info (c : CompileContext) : Option CompileContext :=
  match c.resume with
  | none => none
  | some (value, c) => c.tag (" class=\"language-" ++ value ++ "\"")

/-- Handle the exit of fenced or indented code. -/
def on_exit_code_flow (c : CompileContext) : Option CompileContext :=
  match c.code_flow_seen_data with
  | none => none
  | some seen_data =>
    let c := { c with code_flow_seen_data := none }
    (((match c.code_fenced_fences_count with
        | some count =>
          if count == 1 && !c.tight_stack.isEmpty && !c.last_was_tag then
            c.line_ending
          else some c
        | none => some c).bind
      (fun c => if seen_data then c.line_ending_if_needed else some c)).bind
      (fun c => c.tag "</code></pre>")).bind
      (fun c =>
        let count? := c.code_fenced_fences_count
        let c := { c with code_fenced_fences_count := none }
        (match count? with
          | some count => if count < 2 then c.line_ending_if_needed else some c
          | none => some c).map
          (fun (c : CompileContext) => { c with slurp_one_line_ending := false }))

/-- The trim test of `on_exit_code_text`: the first character is a space,
the last character (after the first) is a space, and some character in
between is not a space. -/
def codeTextTrim (l : List Char) : Bool :=
  match l with
  | [] => false
  | x :: xs =>
    match xs.getLast? with
    | none => false
    | some y => x == ' ' && y == ' ' && xs.dropLast.any (fun ch => ch != ' ')

/-- Handle the exit of code text. -/
def on_exit_code_text (c : CompileContext) : Option CompileContext :=
  match c.resume with
  | none => none
  | some (result, c) =>
    let c := { c with code_text_inside := false }
    (c.push
      (if codeTextTrim result.data then String.mk ((result.data.drop 1).dropLast)
       else result)).bind
      (fun c => c.tag "</code>")

/-- Handle an exit by dropping the buffer. -/
def on_exit_drop (c : CompileContext) : Option CompileContext :=
  (c.resume).map (fun p => p.2)

/-- Handle the exit of data-ish tokens: emit the span's text, encoded. -/
def on_exit_data (events : List Event) (codes : List Code) (c : CompileContext) :
    Option CompileContext :=
  c.push_raw (serialize codes (from_exit_event events c.index))

/-- Handle the exit of a definition: store it under its normalized
identifier unless one is already stored. -/
def on_exit_definition (c : CompileContext) : Option CompileContext :=
  match c.media_stack with
  | [] => none
  | definition :: rest =>
    match definition.reference_id with
    | none => none
    | some rid =>
      let reference_id := normalize_identifier rid
      let destination := definition.destination
      let title := definition.title
      let c := { c with media_stack := rest }
      match c.resume with
      | none => none
      | some (_, c) =>
        if c.definitions.any (fun d => d.1 == reference_id) then some c
        else
          some { c with definitions :=
            c.definitions ++ [(reference_id, { destination := destination, title := title })] }

/-- Handle the exit of a definition destination string. -/
def on_exit_definition_destination_string (c : CompileContext) : Option CompileContext :=
  match c.resume with
  | none => none
  | some (buf, c) =>
    (c.withTopMedia (fun m => { m with destination := some buf })).map
      (fun c => { c with ignore_encode := false })

/-- Handle the exit of a definition label string: keep the source text. -/
def on_exit_definition_label_string (events : List Event) (codes : List Code)
    (c : CompileContext) : Option CompileContext :=
  match c.resume with
  | none => none
  | some (_, c) =>
    c.withTopMedia
      (fun m => { m with reference_id := some (serialize codes (from_exit_event events c.index)) })

/-- Handle the exit of a definition title string. -/
def on_exit_definition_title_string (c : CompileContext) : Option CompileContext :=
  match c.resume with
  | none => none
  | some (buf, c) => c.withTopMedia (fun m => { m with title := some buf })

/-- Handle the exit of emphasis. -/
def on_exit_emphasis (c : CompileContext) : Option CompileContext :=
  c.tag "</em>"

/-- Handle the exit of an atx heading. -/
def on_exit_heading_atx (c : CompileContext) : Option CompileContext :=
  match c.atx_opening_sequence_size with
  | none => none
  | some rank =>
    CompileContext.tag { c with atx_opening_sequence_size := none }
      ("</h" ++ toString rank ++ ">")

/-- Handle the exit of an atx heading sequence: the first one fixes the
rank. -/
def on_exit_heading_atx_sequence (events : List Event) (codes : List Code)
    (c : CompileContext) : Option CompileContext :=
  if c.atx_opening_sequence_size.isNone then
    let rank := (serialize codes (from_exit_event events c.index)).length
    (c.line_ending_if_needed).bind
      (fun c =>
        CompileContext.tag { c with atx_opening_sequence_size := some rank }
          ("<h" ++ toString rank ++ ">"))
  else some c

/-- Handle the exit of atx heading text. -/
def on_exit_heading_atx_text (c : CompileContext) : Option CompileContext :=
  match c.resume with
  | none => none
  | some (value, c) => c.push value

/-- Handle the exit of setext heading text. -/
def on_exit_heading_setext_text (c : CompileContext) : Option CompileContext :=
  (c.resume).map
    (fun p => { p.2 with heading_setext_buffer := some p.1, slurp_one_line_ending := true })

/-- Handle the exit of a setext heading underline. -/
def on_exit_heading_setext_underline (events : List Event) (codes : List Code)
    (c : CompileContext) : Option CompileContext :=
  match c.heading_setext_buffer with
  | none => none
  | some text =>
    let c := { c with heading_setext_buffer := none }
    match (codes_from_span codes (from_exit_event events c.index)).head? with
    | none => none
    | some head =>
      let level := if head == Code.char '-' then 2 else 1
      (((c.line_ending_if_needed).bind
        (fun c => c.tag ("<h" ++ toString level ++ ">"))).bind
        (fun c => c.push text)).bind
        (fun c => c.tag ("</h" ++ toString level ++ ">"))

/-- Handle the exit of flow or text HTML. -/
def on_exit_html (c : CompileContext) : Option CompileContext :=
  some { c with ignore_encode := false }

/-- Handle the exit of HTML data. -/
def on_exit_html_data (events : List Event) (codes : List Code) (c : CompileContext) :
    Option CompileContext :=
  c.push_raw (serialize codes (from_exit_event events c.index))

/-- Handle the exit of a label. -/
def on_exit_label (c : CompileContext) : Option CompileContext :=
  match c.resume with
  | none => none
  | some (buf, c) => c.withTopMedia (fun m => { m with label := some buf })

/-- Handle the exit of label text. -/
def on_exit_label_text (events : List Event) (codes : List Code) (c : CompileContext) :
    Option CompileContext :=
  c.withTopMedia
    (fun m => { m with label_id := some (serialize codes (from_exit_event events c.index)) })

/-- Handle the exit of a line ending. -/
def on_exit_line_ending (events : List Event) (codes : List Code) (c : CompileContext) :
    Option CompileContext :=
  if c.code_text_inside then c.push " "
  else if c.slurp_one_line_ending then some { c with slurp_one_line_ending := false }
  else c.push_raw (serialize codes (from_exit_event events c.index))

/-- Handle the exit of a list. -/
def on_exit_list (events : List Event) (c : CompileContext) : Option CompileContext :=
  match events[c.index]? with
  | none => none
  | some e =>
    let tag_name := if e.token_type == Token.listOrdered then "ol" else "ul"
    (CompileContext.line_ending { c with tight_stack := c.tight_stack.tail }).bind
      (fun c => c.tag ("</" ++ tag_name ++ ">"))

/-- Handle the exit of a list item. -/
def on_exit_list_item (events : List Event) (c : CompileContext) : Option CompileContext :=
  let tight := c.tight_stack.headD false
  let before_item := skip_opt_back events (c.index - 1)
    [Token.blankLineEnding, Token.lineEnding, Token.spaceOrTab, Token.blockQuotePrefixTok]
  let previous := (events[before_item]?).map Event.token_type
  let tight_paragraph := tight && previous == some Token.paragraph
  let empty_item := previous == some Token.listItemPrefixTok
  let c := { c with slurp_one_line_ending := false }
  ((if !tight_paragraph && !empty_item then c.line_ending_if_needed else some c)).bind
    (fun c => c.tag "</li>")

/-- Handle the exit of an ordered list item value. -/
def on_exit_list_item_value (events : List Event) (codes : List Code)
    (c : CompileContext) : Option CompileContext :=
  match c.expect_first_item with
  | none => none
  | some expect_first_item =>
    if expect_first_item then
      let slice := serialize codes (from_exit_event events c.index)
      match slice.toNat? with
      | none => none
      | some value =>
        if value ≥ 4294967296 then none
        else if value != 1 then
          ((c.tag " start=\"").bind (fun c => c.tag (toString value))).bind
            (fun c => c.tag "\"")
        else some c
    else some c

/-- Handle the exit of an image or link. -/
def on_exit_media (c : CompileContext) : Option CompileContext :=
  match c.media_stack with
  | [] => none
  | media :: rest =>
    let is_in_image := rest.any (fun m => m.image)
    let c := { c with tags := !is_in_image, media_stack := rest }
    match media.label with
    | none => none
    | some label =>
      let id := (media.reference_id.or media.label_id).map (fun i => normalize_identifier i)
      let definition : Option Definition := id.bind (fun i => defLookup c.definitions i)
      let destinationSel : Option (Option String) :=
        if media.destination.isSome then some media.destination
        else definition.map (fun d => d.destination)
      let titleSel : Option (Option String) :=
        if media.destination.isSome then some media.title
        else definition.map (fun d => d.title)
      match destinationSel, titleSel with
      | some destination?, some title? =>
        let destination := destination?.getD ""
        let title :=
          match title? with
          | some t => " title=\"" ++ t ++ "\""
          | none => ""
        if media.image then
          ((c.tag ("<img src=\"" ++ sanitize_uri destination c.protocol_src ++ "\" alt=\"")).bind
            (fun c => c.push label)).bind
            (fun c => c.tag ("\"" ++ title ++ " />"))
        else
          ((c.tag ("<a href=\"" ++ sanitize_uri destination c.protocol_href ++ "\"" ++ title ++ ">")).bind
            (fun c => c.push label)).bind
            (fun c => c.tag "</a>")
      | _, _ => none

/-- Handle the exit of a paragraph. -/
def on_exit_paragraph (c : CompileContext) : Option CompileContext :=
  let tight := c.tight_stack.headD false
  if tight then some { c with slurp_one_line_ending := true }
  else c.tag "</p>"

/-- Handle the exit of a reference string: keep the source text. -/
def on_exit_reference_string (events : List Event) (codes : List Code)
    (c : CompileContext) : Option CompileContext :=
  match c.resume with
  | none => none
  | some (_, c) =>
    c.withTopMedia
      (fun m => { m with reference_id := some (serialize codes (from_exit_event events c.index)) })

/-- Handle the exit of a resource destination string. -/
def on_exit_resource_destination_string (c : CompileContext) : Option CompileContext :=
  match c.resume with
  | none => none
  | some (buf, c) =>
    (c.withTopMedia (fun m => { m with destination := some buf })).map
      (fun c => { c with ignore_encode := false })

/-- Handle the exit of a resource title string. -/
def on_exit_resource_title_string (c : CompileContext) : Option CompileContext :=
  match c.resume with
  | none => none
  | some (buf, c) => c.withTopMedia (fun m => { m with title := some buf })

/-- Handle the exit of strong. -/
def on_exit_strong (c : CompileContext) : Option CompileContext :=
  c.tag "</strong>"

/-- Handle the exit of a thematic break. -/
def on_exit_thematic_break (c : CompileContext) : Option CompileContext :=
  (c.line_ending_if_needed).bind (fun c => c.tag "<hr />")

/-- Handle an enter event: the `enter` switch of the source (unlisted kinds
are no-ops). -/
def enter (events : List Event) (codes : List Code) (c : CompileContext) :
    Option CompileContext :=
  match events[c.index]? with
  | none => none
  | some e =>
    match e.token_type with
    | .codeFencedFenceInfo | .codeFencedFenceMeta | .definitionLabelString
    | .definitionTitleString | .headingAtxText | .headingSetextText
    | .label | .referenceString | .resourceTitleString => on_enter_buffer c
    | .blockQuote => on_enter_block_quote c
    | .codeIndented => on_enter_code_indented c
    | .codeFenced => on_enter_code_fenced c
    | .codeText => on_enter_code_text c
    | .definition => on_enter_definition c
    | .definitionDestinationString => on_enter_definition_destination_string c
    | .emphasis => on_enter_emphasis c
    | .htmlFlow => on_enter_html_flow c
    | .htmlText => on_enter_html_text c
    | .image => on_enter_image c
    | .link => on_enter_link c
    | .listItemMarker => on_enter_list_item_marker c
    | .listOrdered | .listUnordered => on_enter_list events c
    | .paragraph => on_enter_paragraph c
    | .resource => on_enter_resource c
    | .resourceDestinationString => on_enter_resource_destination_string c
    | .strong => on_enter_strong c
    | _ => some c

/-- Handle an exit event: the `exit` switch of the source (unlisted kinds
are no-ops). -/
def exit (events : List Event) (codes : List Code) (c : CompileContext) :
    Option CompileContext :=
  match events[c.index]? with
  | none => none
  | some e =>
    match e.token_type with
    | .codeFencedFenceMeta | .resource => on_exit_drop c
    | .characterEscapeValue | .codeTextData | .data => on_exit_data events codes c
    | .autolinkEmail => on_exit_autolink_email events codes c
    | .autolinkProtocol => on_exit_autolink_protocol events codes c
    | .blankLineEnding => on_exit_blank_line_ending events c
    | .blockQuote => on_exit_block_quote c
    | .characterReferenceMarker => on_exit_character_reference_marker c
    | .characterReferenceMarkerNumeric => on_exit_character_reference_marker_numeric c
    | .characterReferenceMarkerHexadecimal => on_exit_character_reference_marker_hexadecimal c
    | .characterReferenceValue => on_exit_character_reference_value events codes c
    | .codeFenced | .codeIndented => on_exit_code_flow c
    | .codeFencedFence => on_exit_code_fenced_fence c
    | .codeFencedFenceInfo => on_exit_code_fenced_fence_info c
    | .codeFlowChunk => on_exit_code_flow_chunk events codes c
    | .codeText => on_exit_code_text c
    | .definition => on_exit_definition c
    | .definitionDestinationString => on_exit_definition_destination_string c
    | .definitionLabelString => on_exit_definition_label_string events codes c
    | .definitionTitleString => on_exit_definition_title_string c
    | .emphasis => on_exit_emphasis c
    | .hardBreakEscape | .hardBreakTrailing => on_exit_break c
    | .headingAtx => on_exit_heading_atx c
    | .headingAtxSequence => on_exit_heading_atx_sequence events codes c
    | .headingAtxText => on_exit_heading_atx_text c
    | .headingSetextText => on_exit_heading_setext_text c
    | .headingSetextUnderline => on_exit_heading_setext_underline events codes c
    | .htmlFlow | .htmlText => on_exit_html c
    | .htmlFlowData | .htmlTextData => on_exit_html_data events codes c
    | .image | .link => on_exit_media c
    | .label => on_exit_label c
    | .labelText => on_exit_label_text events codes c
    | .lineEnding => on_exit_line_ending events codes c
    | .listOrdered | .listUnordered => on_exit_list events c
    | .listItem => on_exit_list_item events c
    | .listItemValue => on_exit_list_item_value events codes c
    | .paragraph => on_exit_paragraph c
    | .referenceString => on_exit_reference_string events codes c
    | .resourceDestinationString => on_exit_resource_destination_string c
    | .resourceTitleString => on_exit_resource_title_string c
    | .strong => on_exit_strong c
    | .thematicBreak => on_exit_thematic_break c
    | _ => some c

/-- Handle one event: the `handle` closure of `compile`. -/
def handleOne (events : List Event) (codes : List Code) (c : CompileContext)
    (index : Nat) : Option CompileContext :=
  match events[index]? with
  | none => none
  | some e =>
    let c := { c with index := index }
    if e.event_type == EventType.enter then enter events codes c
    else exit events codes c

/-- Run the handler over a list of event indices, in order. -/
def runIndices (events : List Event) (codes : List Code) :
    CompileContext → List Nat → Option CompileContext
  | c, [] => some c
  | c, i :: rest =>
    (handleOne events codes c i).bind (fun c => runIndices events codes c rest)

/-- First pass of `compile`: handle definitions, recording their event
ranges so the second pass can jump over them. -/
def definitionPassLoop (events : List Event) (codes : List Code) :
    CompileContext → Bool → List (Nat × Nat) → Nat → Nat →
      Option (CompileContext × List (Nat × Nat))
  | c, _, acc, _, 0 => some (c, acc)
  | c, inside, acc, index, fuel + 1 =>
    match events[index]? with
    | none => some (c, acc)
    | some event =>
      (if inside then handleOne events codes c index else some c).bind (fun c =>
        if event.token_type == Token.definition then
          if event.event_type == EventType.enter then
            (handleOne events codes c index).bind (fun c =>
              definitionPassLoop events codes c true (acc ++ [(index, index)])
                (index + 1) fuel)
          else
            match acc.getLast? with
            | none => none
            | some last =>
              definitionPassLoop events codes c false
                (acc.dropLast ++ [(last.1, index)]) (index + 1) fuel
        else definitionPassLoop events codes c inside acc (index + 1) fuel)

/-- Second pass of `compile`: handle events, jumping over the recorded
definition ranges and slurping the line ending after each. -/
def mainPassLoop (events : List Event) (codes : List Code) :
    CompileContext → List (Nat × Nat) → Nat → Nat → Option CompileContext
  | c, _, _, 0 => some c
  | c, jumps, index, fuel + 1 =>
    if index < events.length then
      match jumps with
      | (s, e) :: rest =>
        if index == s then
          mainPassLoop events codes { c with slurp_one_line_ending := true } rest
            (e + 1) fuel
        else
          (handleOne events codes c index).bind
            (fun c => mainPassLoop events codes c jumps (index + 1) fuel)
      | [] =>
        (handleOne events codes c index).bind
          (fun c => mainPassLoop events codes c [] (index + 1) fuel)
    else some c

/-- An exit event of a line ending or blank line ending. -/
def isLineEndingExit (e : Event) : Bool :=
  e.event_type == EventType.exit &&
    (e.token_type == Token.blankLineEnding || e.token_type == Token.lineEnding)

/-- The scan for the first line ending (the first loop of `compile`): `some
none` when no line ending occurs, `none` for a fatal failure (an empty span
or a span that does not start with a line ending code). -/
def detectLineEnding : List Event → List Code → Option (Option LineEnding)
  | [], _ => some none
  | e :: rest, codes =>
    if isLineEndingExit e then
      match (codes_from_span codes (e.start, e.stop)).head? with
      | none => none
      | some cd =>
        match LineEnding.from_code cd with
        | none => none
        | some le => some (some le)
    else detectLineEnding rest codes

/-- The line ending style `compile` uses: the detected one, else the
configured default. -/
def lineEndingUsed (events : List Event) (codes : List Code) (options : Options) :
    Option LineEnding :=
  (detectLineEnding events codes).map (fun o => o.getD options.default_line_ending)

/-- The final step of `compile`: exactly one buffer must remain (the
source's assert); its contents are the result. -/
def compileFinish (c : CompileContext) : Option String :=
  match c.buffers with
  | [b] => some b
  | _ => none

/-- Turn events and codes into a string of HTML (`none` is a panic). -/
def compile (events : List Event) (codes : List Code) (options : Options) :
    Option String :=
  (lineEndingUsed events codes options).bind (fun line_ending_default =>
    ((definitionPassLoop events codes (CompileContext.new options line_ending_default)
        false [] 0 (events.length + 1)).bind
      (fun p => mainPassLoop events codes p.1 p.2 0 (events.length + 1))).bind
      compileFinish)

/-- Tokens whose enter pushes a buffer and whose exit pops one. -/
def bufferedToken : Token → Bool
  | .codeFencedFenceInfo | .codeFencedFenceMeta | .definitionLabelString
  | .definitionTitleString | .headingAtxText | .headingSetextText
  | .label | .referenceString | .resourceTitleString
  | .codeText | .definition | .definitionDestinationString
  | .resource | .resourceDestinationString => true
  | _ => false

/-- Net effect of one event on the size of the buffer stack. -/
def buffer_delta (e : Event) : Int :=
  if bufferedToken e.token_type then
    if e.event_type == EventType.enter then 1 else -1
  else 0

/-- Net effect of the event at index `i` on the size of the buffer stack. -/
def buffer_delta_at (events : List Event) (i : Nat) : Int :=
  match events[i]? with
  | some e => buffer_delta e
  | none => 0

/-- The spec's description of the code text trim: strip one leading and one
trailing space exactly when the content starts with a space, ends with a
space and holds at least one character that is not a space. -/
def codeTextSpecOutput (s : String) : String :=
  if s.data.head? == some ' ' && s.data.getLast? == some ' ' &&
      s.data.any (fun ch => ch != ' ') then
    String.mk ((s.data.drop 1).dropLast)
  else s

/-- The spec's description of the markup emitted for an image or a link,
given the selected destination and title pair. -/
def mediaHtml (image : Bool) (destination : String) (title : Option String)
    (label : String) (protocol_href protocol_src : Option (List String)) : String :=
  let titleAttr :=
    match title with
    | some t => " title=\"" ++ t ++ "\""
    | none => ""
  if image then
    "<img src=\"" ++ sanitize_uri destination protocol_src ++ "\" alt=\"" ++
      label ++ "\"" ++ titleAttr ++ " />"
  else
    "<a href=\"" ++ sanitize_uri destination protocol_href ++ "\"" ++ titleAttr ++
      ">" ++ label ++ "</a>"

/-- The spec's step-by-step description of the output appended on the exit
of flow code, starting from a top buffer `b`: an extra line ending when only
the opening fence was seen inside a container and the last emission was not
a tag, a line ending when data was emitted and one is needed, then the
closing tags, then a line ending when fewer than two fences were seen. -/
def codeFlowExitDescription (count? : Option Nat) (seen_data : Bool)
    (tightNonEmpty : Bool) (lastWasTag : Bool) (b : String) (le : String) : String :=
  let b1 := if count? == some 1 && tightNonEmpty && !lastWasTag then b ++ le else b
  let b2 := if seen_data && needsEol b1 then b1 ++ le else b1
  let b3 := b2 ++ "</code></pre>"
  if (count?.map (fun n => decide (n < 2))).getD false && needsEol b3 then b3 ++ le
  else b3

/-- The definition lookup performed by `on_exit_media`: the normalized
reference identifier (explicit reference text, else label text), looked up
among the stored definitions. -/
def mediaDefinition (defs : List (String × Definition)) (media : Media) :
    Option Definition :=
  ((media.reference_id.or media.label_id).map (fun i => normalize_identifier i)).bind
    (fun i => defLookup defs i)

/-- A fresh context over the default options. -/
def sampleCtx : CompileContext :=
  CompileContext.new Options.default LineEnding.lineFeed

/-- Modelled from the spec: the code points of the source text made of a
backtick, a space, the letter a, a space and a backtick. -/
def codeTextExampleCodes : List Code :=
  [Code.char '`', Code.char ' ', Code.char 'a', Code.char ' ', Code.char '`']

/-- Modelled from the spec: the token stream for `codeTextExampleCodes` (a
paragraph holding one code text span whose data is a space, a, space). -/
def codeTextExampleEvents : List Event :=
  [⟨EventType.enter, Token.paragraph, 0, 5⟩,
   ⟨EventType.enter, Token.codeText, 0, 5⟩,
   ⟨EventType.enter, Token.codeTextSequence, 0, 1⟩,
   ⟨EventType.exit, Token.codeTextSequence, 0, 1⟩,
   ⟨EventType.enter, Token.codeTextData, 1, 4⟩,
   ⟨EventType.exit, Token.codeTextData, 1, 4⟩,
   ⟨EventType.enter, Token.codeTextSequence, 4, 5⟩,
   ⟨EventType.exit, Token.codeTextSequence, 4, 5⟩,
   ⟨EventType.exit, Token.codeText, 0, 5⟩,
   ⟨EventType.exit, Token.paragraph, 0, 5⟩]

/-- Modelled from the spec: the code points of the source text holding two
definitions of the identifier y (destinations /1 and /2, titles t1 and t2)
followed by a paragraph with the reference of x to y. -/
def dupDefCodes : List Code :=
  [Code.char '[', Code.char 'y', Code.char ']', Code.char ':', Code.char ' ',
   Code.char '/', Code.char '1', Code.char ' ', Code.char '"', Code.char 't',
   Code.char '1', Code.char '"', Code.lf, Code.lf,
   Code.char '[', Code.char 'y', Code.char ']', Code.char ':', Code.char ' ',
   Code.char '/', Code.char '2', Code.char ' ', Code.char '"', Code.char 't',
   Code.char '2', Code.char '"', Code.lf, Code.lf,
   Code.char '[', Code.char 'x', Code.char ']', Code.char '[', Code.char 'y',
   Code.char ']']

/-- Modelled from the spec: the token stream for `dupDefCodes`. -/
def dupDefEvents : List Event :=
  [⟨EventType.enter, Token.definition, 0, 12⟩,
   ⟨EventType.enter, Token.definitionLabelString, 1, 2⟩,
   ⟨EventType.enter, Token.data, 1, 2⟩,
   ⟨EventType.exit, Token.data, 1, 2⟩,
   ⟨EventType.exit, Token.definitionLabelString, 1, 2⟩,
   ⟨EventType.enter, Token.definitionDestinationString, 5, 7⟩,
   ⟨EventType.enter, Token.data, 5, 7⟩,
   ⟨EventType.exit, Token.data, 5, 7⟩,
   ⟨EventType.exit, Token.definitionDestinationString, 5, 7⟩,
   ⟨EventType.enter, Token.definitionTitleString, 9, 11⟩,
   ⟨EventType.enter, Token.data, 9, 11⟩,
   ⟨EventType.exit, Token.data, 9, 11⟩,
   ⟨EventType.exit, Token.definitionTitleString, 9, 11⟩,
   ⟨EventType.exit, Token.definition, 0, 12⟩,
   ⟨EventType.enter, Token.lineEnding, 12, 13⟩,
   ⟨EventType.exit, Token.lineEnding, 12, 13⟩,
   ⟨EventType.enter, Token.blankLineEnding, 13, 14⟩,
   ⟨EventType.exit, Token.blankLineEnding, 13, 14⟩,
   ⟨EventType.enter, Token.definition, 14, 26⟩,
   ⟨EventType.enter, Token.definitionLabelString, 15, 16⟩,
   ⟨EventType.enter, Token.data, 15, 16⟩,
   ⟨EventType.exit, Token.data, 15, 16⟩,
   ⟨EventType.exit, Token.definitionLabelString, 15, 16⟩,
   ⟨EventType.enter, Token.definitionDestinationString, 19, 21⟩,
   ⟨EventType.enter, Token.data, 19, 21⟩,
   ⟨EventType.exit, Token.data, 19, 21⟩,
   ⟨EventType.exit, Token.definitionDestinationString, 19, 21⟩,
   ⟨EventType.enter, Token.definitionTitleString, 23, 25⟩,
   ⟨EventType.enter, Token.data, 23, 25⟩,
   ⟨EventType.exit, Token.data, 23, 25⟩,
   ⟨EventType.exit, Token.definitionTitleString, 23, 25⟩,
   ⟨EventType.exit, Token.definition, 14, 26⟩,
   ⟨EventType.enter, Token.lineEnding, 26, 27⟩,
   ⟨EventType.exit, Token.lineEnding, 26, 27⟩,
   ⟨EventType.enter, Token.blankLineEnding, 27, 28⟩,
   ⟨EventType.exit, Token.blankLineEnding, 27, 28⟩,
   ⟨EventType.enter, Token.paragraph, 28, 34⟩,
   ⟨EventType.enter, Token.link, 28, 34⟩,
   ⟨EventType.enter, Token.label, 28, 31⟩,
   ⟨EventType.enter, Token.labelText, 29, 30⟩,
   ⟨EventType.enter, Token.data, 29, 30⟩,
   ⟨EventType.exit, Token.data, 29, 30⟩,
   ⟨EventType.exit, Token.labelText, 29, 30⟩,
   ⟨EventType.exit, Token.label, 28, 31⟩,
   ⟨EventType.enter, Token.referenceString, 32, 33⟩,
   ⟨EventType.enter, Token.data, 32, 33⟩,
   ⟨EventType.exit, Token.data, 32, 33⟩,
   ⟨EventType.exit, Token.referenceString, 32, 33⟩,
   ⟨EventType.exit, Token.link, 28, 34⟩,
   ⟨EventType.exit, Token.paragraph, 28, 34⟩]

/-- A context about to exit code text whose popped buffer is space, a,
space. -/
def c5ctx : CompileContext :=
  { sampleCtx with code_text_inside := true, buffers := [" a ", "<code>"] }

/-- A context inside code text, about to exit a line ending. -/
def c7ctx : CompileContext :=
  { sampleCtx with code_text_inside := true }

/-- A link media with both a resource destination and a title. -/
def sampleLinkMedia : Media :=
  { image := false, label_id := some "x", label := some "x",
    reference_id := some "y", destination := some "/u", title := some "t" }

/-- An image media with no content yet. -/
def sampleImageMedia : Media :=
  emptyMedia true

/-- A context exiting a link while an enclosing image is on the media
stack. -/
def c4ctx : CompileContext :=
  { sampleCtx with media_stack := [sampleLinkMedia, sampleImageMedia], tags := false }

/-- A context exiting a link with an inline resource. -/
def c2ctx : CompileContext :=
  { sampleCtx with media_stack := [sampleLinkMedia] }

/-- A reference-only link media (no inline destination). -/
def sampleRefMedia : Media :=
  { image := false, label_id := some "x", label := some "x",
    reference_id := some "y", destination := none, title := none }

/-- A context exiting a reference link whose definition is stored. -/
def c10ctxWith : CompileContext :=
  { sampleCtx with
    media_stack := [sampleRefMedia]
    definitions := [("y", { destination := some "/u", title := none })] }

/-- A context exiting a reference link with no matching definition. -/
def c10ctxWithout : CompileContext :=
  { sampleCtx with media_stack := [sampleRefMedia] }

/-- A definition media as built by the first pass. -/
def c1DefMedia : Media :=
  { image := false, label_id := none, label := none, reference_id := some "y",
    destination := some "/1", title := some "t1" }

/-- A context exiting a definition whose identifier is already stored. -/
def c1ctx : CompileContext :=
  { sampleCtx with
    media_stack := [c1DefMedia]
    definitions := [("y", { destination := some "/0", title := none })]
    buffers := ["inner", "outer"] }

/-- Stored definitions used to exercise the first-match lookup. -/
def defn1 : Definition := { destination := some "/1", title := some "t1" }

/-- A second definition for the same identifier. -/
def defn2 : Definition := { destination := some "/2", title := some "t2" }

/-- A definition for an unrelated identifier. -/
def defnA : Definition := { destination := some "/a", title := none }

/-- A context exiting flow code after an opening fence and one closing
fence (the fence counter holds 2), inside a container, with the last
emission not a tag. -/
def c6ceCtx : CompileContext :=
  { sampleCtx with
    code_flow_seen_data := some false
    code_fenced_fences_count := some 2
    tight_stack := [true]
    buffers := ["x"] }

/-- A context exiting unterminated fenced code (only the opening fence was
seen) inside a container. -/
def c6wCtx : CompileContext :=
  { sampleCtx with
    code_flow_seen_data := some true
    code_fenced_fences_count := some 1
    tight_stack := [true]
    buffers := ["q"] }

/-- The context after handling the first event of the code text example (a
paragraph enter). -/
def c9res : CompileContext :=
  { sampleCtx with buffers := ["<p>"], last_was_tag := true, index := 0 }

-- END OF DEFINITIONS

theorem codeTextTrim_iff (l : List Char) :
    codeTextTrim l =
      (l.head? == some ' ' && l.getLast? == some ' ' && l.any (fun ch => ch != ' ')) := by
  cases l with
  | nil => rfl
  | cons x xs =>
    induction xs using List.reverseRecOn with
    | nil =>
      cases hxb : x == ' ' <;> simp [codeTextTrim, hxb, bne]
    | append_singleton ys y ih =>
      have h1 : (x :: (ys ++ [y])).getLast? = some y := by
        rw [← List.cons_append]; exact List.getLast?_concat _
      simp only [codeTextTrim, List.getLast?_concat, List.dropLast_concat, h1,
        List.head?_cons, List.any_cons, List.any_append]
      cases hxb : x == ' ' <;> cases hyb : y == ' ' <;>
        simp [hxb, hyb, bne, List.any_append]

theorem some_beq_some {α : Type} [BEq α] (a b : α) : (some a == some b) = (a == b) := rfl

theorem tag_eq (c : CompileContext) (v : String) (ht : c.tags = true)
    (hne : c.buffers ≠ []) :
    c.tag v =
      some { c with buffers := (c.buffers.headD "" ++ v) :: c.buffers.tail
                    last_was_tag := true } := by
  rcases hb : c.buffers with _ | ⟨b, rest⟩
  · exact absurd hb hne
  · simp [CompileContext.tag, ht, CompileContext.push, hb]

theorem line_ending_eq (c : CompileContext) (hne : c.buffers ≠ []) :
    c.line_ending =
      some { c with
        buffers := (c.buffers.headD "" ++ c.line_ending_default.as_str) :: c.buffers.tail
        last_was_tag := false } := by
  rcases hb : c.buffers with _ | ⟨b, rest⟩
  · exact absurd hb hne
  · simp [CompileContext.line_ending, CompileContext.push, hb]

theorem line_ending_if_needed_eq (c : CompileContext) (hne : c.buffers ≠ []) :
    c.line_ending_if_needed =
      some { c with
        buffers :=
          (if needsEol (c.buffers.headD "") then
            c.buffers.headD "" ++ c.line_ending_default.as_str
          else c.buffers.headD "") :: c.buffers.tail
        last_was_tag :=
          if needsEol (c.buffers.headD "") then false else c.last_was_tag } := by
  rcases hb : c.buffers with _ | ⟨b, rest⟩
  · exact absurd hb hne
  · have h1 : c.line_ending_if_needed = if needsEol b then c.line_ending else some c := by
      unfold CompileContext.line_ending_if_needed
      rw [hb]
    cases hne2 : needsEol b
    · rw [h1, hne2]
      simp only [Bool.false_eq_true, if_false, List.headD_cons, List.tail_cons, hb, hne2]
      rw [← hb]
    · rw [h1, hne2, line_ending_eq c hne]
      simp [hb, hne2]

/-- C5: on the exit of code text, the popped buffer has exactly one leading
and one trailing space removed precisely when it starts with a space, ends
with a space and holds at least one character that is not a space
(`codeTextSpecOutput` states that condition in the spec's words); otherwise
it is appended unchanged, and `</code>` follows.  In particular the source
made of a backtick, space, a, space, backtick compiles to a paragraph
holding `<code>a</code>`. -/
theorem on_exit_code_text_trims_single_spaces :
    (∀ (c : CompileContext) (s b : String) (rest : List String),
      c.buffers = s :: b :: rest → c.tags = true →
      on_exit_code_text c =
        some { c with code_text_inside := false,
                      buffers := (b ++ codeTextSpecOutput s ++ "</code>") :: rest,
                      last_was_tag := true }) ∧
    compile codeTextExampleEvents codeTextExampleCodes Options.default =
      some "<p><code>a</code></p>" := by
  constructor
  · intro c s b rest hb ht
    have hres : c.resume = some (s, { c with buffers := b :: rest }) := by
      simp [CompileContext.resume, hb]
    simp only [on_exit_code_text, hres, codeTextSpecOutput, ← codeTextTrim_iff]
    simp only [CompileContext.push, CompileContext.tag, ht]
    simp [String.append_assoc]
  · decide

/-- Witness for C5 at a concrete context: the buffer space, a, space is
trimmed to a. -/
theorem on_exit_code_text_trims_single_spaces_witness :
    on_exit_code_text c5ctx =
      some { c5ctx with code_text_inside := false,
                        buffers := ("<code>" ++ codeTextSpecOutput " a " ++ "</code>") :: [],
                        last_was_tag := true } ∧
    codeTextSpecOutput " a " = "a" :=
  ⟨on_exit_code_text_trims_single_spaces.1 c5ctx " a " "<code>" [] rfl rfl, by decide⟩

/-- C7: on the exit of a line ending exactly one of three behaviors occurs:
inside code text a single space is pushed; otherwise with
`slurp_one_line_ending` set the flag is cleared and nothing is emitted;
otherwise the span's serialized text is appended HTML-encoded. -/
theorem on_exit_line_ending_three_ways :
    ∀ (events : List Event) (codes : List Code) (c : CompileContext) (b : String)
      (rest : List String),
      c.buffers = b :: rest →
      (c.code_text_inside = true →
        on_exit_line_ending events codes c =
          some { c with buffers := (b ++ " ") :: rest, last_was_tag := false }) ∧
      (c.code_text_inside = false → c.slurp_one_line_ending = true →
        on_exit_line_ending events codes c = some { c with slurp_one_line_ending := false }) ∧
      (c.code_text_inside = false → c.slurp_one_line_ending = false →
       c.ignore_encode = false →
        on_exit_line_ending events codes c =
          some { c with
            buffers := (b ++ encode (serialize codes (from_exit_event events c.index))) :: rest,
            last_was_tag := false }) := by
  intro events codes c b rest hb
  refine ⟨fun h1 => ?_, fun h1 h2 => ?_, fun h1 h2 h3 => ?_⟩
  · simp [on_exit_line_ending, h1, CompileContext.push, hb]
  · simp [on_exit_line_ending, h1, h2]
  · simp [on_exit_line_ending, h1, h2, h3, CompileContext.push_raw, CompileContext.push, hb]

/-- Witness for C7 at a concrete context inside code text: one space is
pushed. -/
theorem on_exit_line_ending_three_ways_witness :
    on_exit_line_ending [] [] c7ctx =
      some { c7ctx with buffers := ("" ++ " ") :: [], last_was_tag := false } :=
  (on_exit_line_ending_three_ways [] [] c7ctx "" [] rfl).1 rfl

/-- C2: in `on_exit_media` the destination and the title are selected as a
coupled pair: when the media's own destination is present both the emitted
destination and the emitted title come from the media, and when it is
absent both come from the looked-up definition. -/
theorem on_exit_media_coupled :
    ∀ (c : CompileContext) (media : Media) (rest : List Media) (label b : String)
      (bs : List String),
      c.media_stack = media :: rest →
      rest.any (fun m => m.image) = false →
      media.label = some label →
      c.buffers = b :: bs →
      (∀ d, media.destination = some d →
        on_exit_media c =
          some { c with
            tags := true
            media_stack := rest
            buffers :=
              (b ++ mediaHtml media.image d media.title label c.protocol_href c.protocol_src) :: bs
            last_was_tag := true }) ∧
      (∀ dfn, media.destination = none →
        mediaDefinition c.definitions media = some dfn →
        on_exit_media c =
          some { c with
            tags := true
            media_stack := rest
            buffers :=
              (b ++ mediaHtml media.image (dfn.destination.getD "") dfn.title label
                c.protocol_href c.protocol_src) :: bs
            last_was_tag := true }) := by
  intro c media rest label b bs hms hni hlbl hb
  constructor
  · intro d hd
    cases himg : media.image <;> cases htitle : media.title <;>
      simp [on_exit_media, hms, hni, hlbl, hd, himg, htitle, mediaHtml,
        CompileContext.tag, CompileContext.push, hb, String.append_assoc]
  · intro dfn hd hdfn
    have hdfn' : (Option.map (fun i => normalize_identifier i)
        (media.reference_id.or media.label_id)).bind
          (fun i => defLookup c.definitions i) = some dfn := by
      simpa [mediaDefinition] using hdfn
    cases himg : media.image <;> cases htitle : dfn.title <;>
      simp [on_exit_media, hms, hni, hlbl, hd, hdfn', himg, htitle, mediaHtml,
        CompileContext.tag, CompileContext.push, hb, String.append_assoc]

/-- Witness for C2 at a concrete link with an inline destination and
title: both come from the media. -/
theorem on_exit_media_coupled_witness :
    on_exit_media c2ctx =
      some { c2ctx with
        tags := true
        media_stack := []
        buffers :=
          ("" ++ mediaHtml false "/u" (some "t") "x" c2ctx.protocol_href c2ctx.protocol_src) :: []
        last_was_tag := true } ∧
    mediaHtml false "/u" (some "t") "x" c2ctx.protocol_href c2ctx.protocol_src =
      "<a href=\"/u\" title=\"t\">x</a>" :=
  ⟨(on_exit_media_coupled c2ctx sampleLinkMedia [] "x" "" [] rfl rfl rfl rfl).1 "/u" rfl,
   by decide⟩

/-- C4: a link exiting while an enclosing media below the top of the media
stack is an image has `tags` set to false, so no `<a>` or `</a>` tags are
written: only the link's rendered label is appended. -/
theorem nested_link_in_image_suppresses_tags :
    ∀ (c : CompileContext) (media : Media) (rest : List Media) (label b : String)
      (bs : List String),
      c.media_stack = media :: rest →
      media.image = false →
      rest.any (fun m => m.image) = true →
      media.label = some label →
      c.buffers = b :: bs →
      (media.destination.isSome = true ∨ mediaDefinition c.definitions media ≠ none) →
      on_exit_media c =
        some { c with
          tags := false
          media_stack := rest
          buffers := (b ++ label) :: bs
          last_was_tag := false } := by
  intro c media rest label b bs hms himg hin hlbl hb hres
  rcases hdst : media.destination with _ | d
  · rcases hdfn : mediaDefinition c.definitions media with _ | dfn
    · exfalso
      rcases hres with h | h
      · rw [hdst] at h; simp at h
      · exact h hdfn
    · have hdfn' : (Option.map (fun i => normalize_identifier i)
          (media.reference_id.or media.label_id)).bind
            (fun i => defLookup c.definitions i) = some dfn := by
        simpa [mediaDefinition] using hdfn
      cases htitle : dfn.title <;>
        simp [on_exit_media, hms, hin, hlbl, hdst, hdfn', himg, htitle,
          CompileContext.tag, CompileContext.push, hb]
  · cases htitle : media.title <;>
      simp [on_exit_media, hms, hin, hlbl, hdst, himg, htitle,
        CompileContext.tag, CompileContext.push, hb]

/-- Witness for C4 at a concrete link nested in an image: only the label
is appended, no anchor tags. -/
theorem nested_link_in_image_suppresses_tags_witness :
    on_exit_media c4ctx =
      some { c4ctx with
        tags := false
        media_stack := [sampleImageMedia]
        buffers := ("" ++ "x") :: []
        last_was_tag := false } :=
  nested_link_in_image_suppresses_tags c4ctx sampleLinkMedia [sampleImageMedia]
    "x" "" [] rfl rfl rfl rfl rfl (Or.inl rfl)

/-- C10: on the exit of an image or link with no inline destination, a
stored definition matching the media's normalized identifier is required:
with it the handler succeeds (the two unwrap calls of the definition cannot
fail), and without it the compiler panics (`none`) instead of emitting
best-effort HTML. -/
theorem on_exit_media_needs_definition :
    ∀ (c : CompileContext) (media : Media) (rest : List Media),
      c.media_stack = media :: rest →
      media.destination = none →
      (mediaDefinition c.definitions media = none → on_exit_media c = none) ∧
      (∀ dfn label b bs,
        mediaDefinition c.definitions media = some dfn →
        media.label = some label →
        c.buffers = b :: bs →
        (on_exit_media c).isSome = true) := by
  intro c media rest hms hdst
  constructor
  · intro hdfn
    have hdfn' : (Option.map (fun i => normalize_identifier i)
        (media.reference_id.or media.label_id)).bind
          (fun i => defLookup c.definitions i) = none := by
      simpa [mediaDefinition] using hdfn
    cases hlbl : media.label <;>
      simp [on_exit_media, hms, hdst, hlbl, hdfn']
  · intro dfn label b bs hdfn hlbl hb
    have hdfn' : (Option.map (fun i => normalize_identifier i)
        (media.reference_id.or media.label_id)).bind
          (fun i => defLookup c.definitions i) = some dfn := by
      simpa [mediaDefinition] using hdfn
    cases hany : rest.any (fun m => m.image) <;>
      cases himg : media.image <;> cases htitle : dfn.title <;>
        simp [on_exit_media, hms, hdst, hlbl, hdfn', hany, himg, htitle,
          CompileContext.tag, CompileContext.push, hb]

/-- Witness for C10 at concrete contexts: the same reference link panics
with no stored definition and succeeds with one. -/
theorem on_exit_media_needs_definition_witness :
    on_exit_media c10ctxWithout = none ∧ (on_exit_media c10ctxWith).isSome = true :=
  ⟨(on_exit_media_needs_definition c10ctxWithout sampleRefMedia [] rfl rfl).1 (by decide),
   (on_exit_media_needs_definition c10ctxWith sampleRefMedia [] rfl rfl).2
     { destination := some "/u", title := none } "x" "" [] (by decide) rfl rfl⟩

/-- C1: only the first definition for a normalized identifier is stored (a
later duplicate leaves the stored list unchanged), the lookup returns the
first stored entry, and an event stream with two definitions of the same
identifier resolves a reference to the first one's destination and title. -/
theorem definition_first_wins :
    (∀ (c : CompileContext) (dm : Media) (rest : List Media) (rid buf : String)
       (bs : List String),
      c.media_stack = dm :: rest →
      dm.reference_id = some rid →
      c.buffers = buf :: bs →
      (c.definitions.any (fun d => d.1 == normalize_identifier rid) = true →
        on_exit_definition c = some { c with media_stack := rest, buffers := bs }) ∧
      (c.definitions.any (fun d => d.1 == normalize_identifier rid) = false →
        on_exit_definition c =
          some { c with
            media_stack := rest
            buffers := bs
            definitions := c.definitions ++
              [(normalize_identifier rid,
                { destination := dm.destination, title := dm.title })] })) ∧
    (∀ (l1 l2 : List (String × Definition)) (d : Definition) (id : String),
      (∀ p ∈ l1, p.1 ≠ id) →
      defLookup (l1 ++ (id, d) :: l2) id = some d) ∧
    compile dupDefEvents dupDefCodes Options.default =
      some "<p><a href=\"/1\" title=\"t1\">x</a></p>" := by
  refine ⟨?_, ?_, by decide⟩
  · intro c dm rest rid buf bs hms hrid hb
    constructor <;> intro h <;>
      simp [on_exit_definition, hms, hrid, CompileContext.resume, hb, h]
  · intro l1 l2 d id
    induction l1 with
    | nil => intro _; simp [defLookup]
    | cons p t ih =>
      intro hne
      have hp : (p.1 == id) = false :=
        beq_eq_false_iff_ne.mpr (hne p (List.mem_cons_self _ _))
      have ht : ∀ q ∈ t, q.1 ≠ id := fun q hq => hne q (List.mem_cons_of_mem _ hq)
      simpa [defLookup, List.find?, hp] using ih ht

/-- Witness for C1 at concrete inputs: a duplicate definition is discarded
and the lookup returns the first stored entry. -/
theorem definition_first_wins_witness :
    on_exit_definition c1ctx = some { c1ctx with media_stack := [], buffers := ["outer"] } ∧
    defLookup [("a", defnA), ("y", defn1), ("y", defn2)] "y" = some defn1 :=
  ⟨(definition_first_wins.1 c1ctx c1DefMedia [] "y" "inner" ["outer"] rfl rfl rfl).1
     (by decide),
   definition_first_wins.2.1 [("a", defnA)] [("y", defn2)] defn1 "y" (by decide)⟩

/-- C8: the output line ending style is inferred from the first exit of a
(blank) line ending, mapping its span's first code point; when no such
event occurs, the configured default is used. -/
theorem line_ending_inference :
    ((LineEnding.from_code Code.lf = some LineEnding.lineFeed) ∧
     (LineEnding.from_code Code.crlf = some LineEnding.carriageReturnLineFeed) ∧
     (LineEnding.from_code Code.cr = some LineEnding.carriageReturn)) ∧
    (∀ (events : List Event) (codes : List Code) (options : Options),
      (∀ e ∈ events, isLineEndingExit e = false) →
      lineEndingUsed events codes options = some options.default_line_ending) ∧
    (∀ (pre : List Event) (e : Event) (post : List Event) (codes : List Code)
       (cd : Code) (le : LineEnding) (options : Options),
      (∀ e' ∈ pre, isLineEndingExit e' = false) →
      isLineEndingExit e = true →
      (codes_from_span codes (e.start, e.stop)).head? = some cd →
      LineEnding.from_code cd = some le →
      lineEndingUsed (pre ++ e :: post) codes options = some le) := by
  refine ⟨⟨rfl, rfl, rfl⟩, ?_, ?_⟩
  · intro events codes options h
    have hd : detectLineEnding events codes = some none := by
      induction events with
      | nil => rfl
      | cons e rest ih =>
        have he := h e (List.mem_cons_self _ _)
        simp only [detectLineEnding, he, Bool.false_eq_true, if_false]
        exact ih (fun e' h' => h e' (List.mem_cons_of_mem _ h'))
    simp [lineEndingUsed, hd]
  · intro pre e post codes cd le options hpre he hcd hle
    have hd : detectLineEnding (pre ++ e :: post) codes = some (some le) := by
      induction pre with
      | nil => simp [detectLineEnding, he, hcd, hle]
      | cons p t ih =>
        have hp := hpre p (List.mem_cons_self _ _)
        simp only [List.cons_append, detectLineEnding, hp, Bool.false_eq_true, if_false]
        exact ih (fun e' h' => hpre e' (List.mem_cons_of_mem _ h'))
    simp [lineEndingUsed, hd]

/-- Witness for C8: an empty stream falls back to the default, and a
stream with one line ending exit over a CRLF code selects CRLF. -/
theorem line_ending_inference_witness :
    lineEndingUsed [] [] Options.default = some Options.default.default_line_ending ∧
    lineEndingUsed [⟨EventType.exit, Token.lineEnding, 0, 1⟩] [Code.crlf] Options.default =
      some LineEnding.carriageReturnLineFeed :=
  ⟨line_ending_inference.2.1 [] [] Options.default (by simp),
   line_ending_inference.2.2 [] ⟨EventType.exit, Token.lineEnding, 0, 1⟩ [] [Code.crlf]
     Code.crlf LineEnding.carriageReturnLineFeed Options.default (by simp) rfl rfl rfl⟩

/-- C6 (amended): on the exit of flow code, when only the opening fence was
seen (the fence counter holds exactly 1, i.e. the block is unterminated),
the container stack is non-empty and the last emission was not a tag, an
extra line ending is emitted before closing; a line ending is ensured when
data was emitted; `</code></pre>` follows; a further line ending is ensured
when fewer than two fences were seen; `slurp_one_line_ending` is cleared
and the scratch fields are reset. -/
theorem on_exit_code_flow_behavior :
    ∀ (c : CompileContext) (sd : Bool) (b : String) (rest : List String),
      c.code_flow_seen_data = some sd → c.tags = true → c.buffers = b :: rest →
      (on_exit_code_flow c).map
          (fun c' => (c'.buffers, c'.slurp_one_line_ending, c'.code_flow_seen_data,
            c'.code_fenced_fences_count)) =
        some
          (codeFlowExitDescription c.code_fenced_fences_count sd
              (!c.tight_stack.isEmpty) c.last_was_tag b c.line_ending_default.as_str :: rest,
            false, none, none) := by
  intro c sd b rest hsd ht hb
  rcases hcount : c.code_fenced_fences_count with _ | n
  · cases sd <;>
      simp [on_exit_code_flow, hsd, hcount, codeFlowExitDescription,
        line_ending_if_needed_eq, tag_eq, line_ending_eq, ht, hb, some_beq_some] <;>
      split_ifs <;> (try (exfalso; tauto)) <;> simp [String.append_assoc]
  · cases hA : (n == 1 && !c.tight_stack.isEmpty && !c.last_was_tag) <;> cases sd <;>
      simp [on_exit_code_flow, hsd, hcount, codeFlowExitDescription,
        line_ending_if_needed_eq, tag_eq, line_ending_eq, ht, hb, some_beq_some, hA] <;>
      split_ifs <;> (try (exfalso; tauto)) <;> simp [String.append_assoc]

/-- Witness for C6 at a concrete unterminated fenced block inside a
container: the extra line ending is emitted inside the code, and the
description evaluates to the expected text. -/
theorem on_exit_code_flow_behavior_witness :
    (on_exit_code_flow c6wCtx).map
        (fun c' => (c'.buffers, c'.slurp_one_line_ending, c'.code_flow_seen_data,
          c'.code_fenced_fences_count)) =
      some
        (codeFlowExitDescription c6wCtx.code_fenced_fences_count true
            (!c6wCtx.tight_stack.isEmpty) c6wCtx.last_was_tag "q"
            c6wCtx.line_ending_default.as_str :: [],
          false, none, none) ∧
    codeFlowExitDescription (some 1) true true false "q" "\n" = "q\n</code></pre>\n" :=
  ⟨on_exit_code_flow_behavior c6wCtx true "q" [] rfl rfl rfl, by decide⟩

/-- Counterexample to C6 as stated: here exactly one CLOSING fence was seen
(the counter holds 2, for the opening fence plus one closing fence), the
list/quote stack is non-empty and the last emission was not a tag, yet no
extra line ending is emitted before `</code></pre>`: the counter test in
the source is `count == 1`, which means only the OPENING fence was seen
(an unterminated block), not one closing fence. -/
theorem on_exit_code_flow_counterexample :
    c6ceCtx.code_fenced_fences_count = some 2 ∧
    c6ceCtx.tight_stack ≠ [] ∧
    c6ceCtx.last_was_tag = false ∧
    (on_exit_code_flow c6ceCtx).map (fun c' => c'.buffers) = some ["x</code></pre>"] ∧
    "x</code></pre>" ≠ "x" ++ c6ceCtx.line_ending_default.as_str ++ "</code></pre>" := by
  refine ⟨rfl, by decide, rfl, by decide, by decide⟩

theorem urlSchemeChars_split :
    ∀ (l : List Char) (sch : List Char),
      urlSchemeChars l = some sch → ∃ t, l = sch ++ ':' :: t := by
  intro l
  induction l with
  | nil => intro sch h; simp [urlSchemeChars] at h
  | cons ch rest ih =>
    intro sch h
    rw [urlSchemeChars] at h
    split at h
    · rename_i hcol
      refine ⟨rest, ?_⟩
      cases h
      simp [eq_of_beq hcol]
    · split at h
      · exact absurd h (by simp)
      · rcases Option.map_eq_some'.mp h with ⟨sch', hsch', rfl⟩
        rcases ih sch' hsch' with ⟨t, rfl⟩
        exact ⟨t, by simp⟩

theorem normalize_uri_chars_append (a b : List Char) :
    normalize_uri_chars (a ++ b) = normalize_uri_chars a ++ normalize_uri_chars b := by
  induction a with
  | nil =>
    show normalize_uri_chars b = "" ++ normalize_uri_chars b
    exact (String.empty_append _).symm
  | cons ch t ih =>
    show percentEncodeChar ch ++ normalize_uri_chars (t ++ b) = _
    rw [ih, ← String.append_assoc]
    rfl

/-- C3: without `allow_dangerous_protocol` the context carries the
`SAFE_PROTOCOL_HREF` and `SAFE_PROTOCOL_SRC` allow-lists (handlers pass
them to `sanitize_uri`); with it both are `none` and `sanitize_uri`
performs no scheme check.  Against an allow-list of percent-invariant
schemes, every `sanitize_uri` result is empty, or the input had no scheme
(a relative path), or the result starts with an allow-listed scheme; the
two safe lists are percent-invariant. -/
theorem url_sanitization :
    (∀ (options : Options) (le : LineEnding),
      options.allow_dangerous_protocol = false →
      (CompileContext.new options le).protocol_href = some SAFE_PROTOCOL_HREF ∧
      (CompileContext.new options le).protocol_src = some SAFE_PROTOCOL_SRC) ∧
    (∀ (options : Options) (le : LineEnding),
      options.allow_dangerous_protocol = true →
      (CompileContext.new options le).protocol_href = none ∧
      (CompileContext.new options le).protocol_src = none) ∧
    (∀ s, sanitize_uri s none = normalize_uri s) ∧
    (∀ p ∈ SAFE_PROTOCOL_HREF, normalize_uri_chars p.data = p) ∧
    (∀ p ∈ SAFE_PROTOCOL_SRC, normalize_uri_chars p.data = p) ∧
    (∀ (ps : List String) (s : String),
      (∀ p ∈ ps, normalize_uri_chars p.data = p) →
      sanitize_uri s (some ps) = "" ∨
      urlScheme s = none ∨
      ∃ p ∈ ps, ∃ u, sanitize_uri s (some ps) = (p ++ ":") ++ u) := by
  refine ⟨?_, ?_, fun s => rfl, by decide, by decide, ?_⟩
  · intro options le h
    constructor <;> simp [CompileContext.new, h]
  · intro options le h
    constructor <;> simp [CompileContext.new, h]
  · intro ps s hps
    rcases hsch : urlScheme s with _ | sch
    · exact Or.inr (Or.inl rfl)
    · by_cases hc : ps.contains sch = true
      · have hmem : sch ∈ ps := by
          simpa [List.contains, List.elem_eq_mem] using hc
        refine Or.inr (Or.inr ⟨sch, hmem, ?_⟩)
        rcases Option.map_eq_some'.mp hsch with ⟨l, hl, rfl⟩
        rcases urlSchemeChars_split s.data l hl with ⟨t, ht⟩
        refine ⟨normalize_uri_chars t, ?_⟩
        have hval : sanitize_uri s (some ps) = normalize_uri s := by
          simp [sanitize_uri, hsch, hmem]
        rw [hval]
        show normalize_uri_chars s.data = _
        rw [ht, normalize_uri_chars_append, hps (String.mk l) hmem]
        show String.mk l ++ (percentEncodeChar ':' ++ normalize_uri_chars t) = _
        rw [← String.append_assoc]
        rfl
      · have hnmem : sch ∉ ps := by
          intro hm
          exact hc (by simp [List.contains, List.elem_eq_mem, hm])
        left
        simp [sanitize_uri, hsch, hnmem]

/-- Witness for C3: the default options carry the href allow-list, and a
javascript scheme is blocked to the empty string for `src`. -/
theorem url_sanitization_witness :
    (CompileContext.new Options.default LineEnding.lineFeed).protocol_href =
      some SAFE_PROTOCOL_HREF ∧
    (sanitize_uri "javascript:x" (some SAFE_PROTOCOL_SRC) = "" ∨
      urlScheme "javascript:x" = none ∨
      ∃ p ∈ SAFE_PROTOCOL_SRC, ∃ u,
        sanitize_uri "javascript:x" (some SAFE_PROTOCOL_SRC) = (p ++ ":") ++ u) ∧
    sanitize_uri "javascript:x" (some SAFE_PROTOCOL_SRC) = "" :=
  ⟨(url_sanitization.1 Options.default LineEnding.lineFeed rfl).1,
   url_sanitization.2.2.2.2.2 SAFE_PROTOCOL_SRC "javascript:x"
     url_sanitization.2.2.2.2.1,
   by decide⟩

theorem push_len {c : CompileContext} {v : String} {c' : CompileContext}
    (h : c.push v = some c') : c'.buffers.length = c.buffers.length := by
  unfold CompileContext.push at h
  split at h
  · simp at h
  · rename_i b rest heq
    cases h
    simp [heq]

theorem push_raw_len {c : CompileContext} {v : String} {c' : CompileContext}
    (h : c.push_raw v = some c') : c'.buffers.length = c.buffers.length := by
  unfold CompileContext.push_raw at h
  split at h <;> exact push_len h

theorem tag_len {c : CompileContext} {v : String} {c' : CompileContext}
    (h : c.tag v = some c') : c'.buffers.length = c.buffers.length := by
  unfold CompileContext.tag at h
  split at h
  · rcases Option.map_eq_some'.mp h with ⟨c1, h1, rfl⟩
    simpa using push_len h1
  · cases h; rfl

theorem line_ending_len {c : CompileContext} {c' : CompileContext}
    (h : c.line_ending = some c') : c'.buffers.length = c.buffers.length :=
  push_len h

theorem line_ending_if_needed_len {c : CompileContext} {c' : CompileContext}
    (h : c.line_ending_if_needed = some c') : c'.buffers.length = c.buffers.length := by
  unfold CompileContext.line_ending_if_needed at h
  split at h
  · simp at h
  · split at h
    · exact line_ending_len h
    · cases h; rfl

theorem resume_len {c : CompileContext} {s : String} {c' : CompileContext}
    (h : c.resume = some (s, c')) : c.buffers.length = c'.buffers.length + 1 := by
  unfold CompileContext.resume at h
  split at h
  · simp at h
  · rename_i b rest heq
    cases h
    simp [heq]

theorem buffer_len (c : CompileContext) : c.buffer.buffers.length = c.buffers.length + 1 := by
  simp [CompileContext.buffer]

theorem withTopMedia_buffers {c : CompileContext} {f : Media → Media} {c' : CompileContext}
    (h : c.withTopMedia f = some c') : c'.buffers = c.buffers := by
  unfold CompileContext.withTopMedia at h
  split at h
  · simp at h
  · cases h; rfl
theorem len_on_enter_buffer {c c' : CompileContext} (h : on_enter_buffer c = some c') :
    c'.buffers.length = c.buffers.length + 1 := by
  cases h; exact buffer_len c

theorem len_on_enter_block_quote {c c' : CompileContext}
    (h : on_enter_block_quote c = some c') : c'.buffers.length = c.buffers.length := by
  unfold on_enter_block_quote at h
  rcases Option.bind_eq_some.mp h with ⟨c1, h1, h2⟩
  rw [tag_len h2, line_ending_if_needed_len h1]

theorem len_on_enter_code_indented {c c' : CompileContext}
    (h : on_enter_code_indented c = some c') : c'.buffers.length = c.buffers.length := by
  unfold on_enter_code_indented at h
  rcases Option.bind_eq_some.mp h with ⟨c1, h1, h2⟩
  rw [tag_len h2, line_ending_if_needed_len h1]

theorem len_on_enter_code_fenced {c c' : CompileContext}
    (h : on_enter_code_fenced c = some c') : c'.buffers.length = c.buffers.length := by
  unfold on_enter_code_fenced at h
  rcases Option.map_eq_some'.mp h with ⟨c2, h2, rfl⟩
  rcases Option.bind_eq_some.mp h2 with ⟨c1, h1, h3⟩
  simpa using (tag_len h3).trans (line_ending_if_needed_len h1)

theorem len_on_enter_code_text {c c' : CompileContext}
    (h : on_enter_code_text c = some c') : c'.buffers.length = c.buffers.length + 1 := by
  unfold on_enter_code_text at h
  rcases Option.map_eq_some'.mp h with ⟨c1, h1, rfl⟩
  simpa [buffer_len] using tag_len h1

theorem len_on_enter_definition {c c' : CompileContext}
    (h : on_enter_definition c = some c') : c'.buffers.length = c.buffers.length + 1 := by
  cases h; simp [CompileContext.buffer]

theorem len_on_enter_definition_destination_string {c c' : CompileContext}
    (h : on_enter_definition_destination_string c = some c') :
    c'.buffers.length = c.buffers.length + 1 := by
  cases h; simp [CompileContext.buffer]

theorem len_on_enter_emphasis {c c' : CompileContext}
    (h : on_enter_emphasis c = some c') : c'.buffers.length = c.buffers.length :=
  tag_len h

theorem len_on_enter_html_flow {c c' : CompileContext}
    (h : on_enter_html_flow c = some c') : c'.buffers.length = c.buffers.length := by
  unfold on_enter_html_flow at h
  rcases Option.map_eq_some'.mp h with ⟨c1, h1, rfl⟩
  have := line_ending_if_needed_len h1
  split <;> simpa using this

theorem len_on_enter_html_text {c c' : CompileContext}
    (h : on_enter_html_text c = some c') : c'.buffers.length = c.buffers.length := by
  cases h; split <;> rfl

theorem len_on_enter_image {c c' : CompileContext}
    (h : on_enter_image c = some c') : c'.buffers.length = c.buffers.length := by
  cases h; rfl

theorem len_on_enter_link {c c' : CompileContext}
    (h : on_enter_link c = some c') : c'.buffers.length = c.buffers.length := by
  cases h; rfl

theorem len_on_enter_list {events : List Event} {c c' : CompileContext}
    (h : on_enter_list events c = some c') : c'.buffers.length = c.buffers.length := by
  unfold on_enter_list at h
  split at h
  · simp at h
  · rcases Option.map_eq_some'.mp h with ⟨c2, h2, rfl⟩
    rcases Option.bind_eq_some.mp h2 with ⟨c1, h1, h3⟩
    simpa using (tag_len h3).trans (line_ending_if_needed_len h1)

theorem len_on_enter_list_item_marker {c c' : CompileContext}
    (h : on_enter_list_item_marker c = some c') : c'.buffers.length = c.buffers.length := by
  unfold on_enter_list_item_marker at h
  split at h
  · simp at h
  · rcases Option.map_eq_some'.mp h with ⟨c3, h3, rfl⟩
    rcases Option.bind_eq_some.mp h3 with ⟨c2, h2, h4⟩
    rcases Option.bind_eq_some.mp h2 with ⟨c1, h1, h5⟩
    have e1 : c1.buffers.length = c.buffers.length := by
      split at h1
      · simpa using tag_len h1
      · cases h1; rfl
    simpa using ((tag_len h4).trans ((line_ending_if_needed_len h5).trans e1))

theorem len_on_enter_paragraph {c c' : CompileContext}
    (h : on_enter_paragraph c = some c') : c'.buffers.length = c.buffers.length := by
  simp only [on_enter_paragraph] at h
  split at h
  · rcases Option.bind_eq_some.mp h with ⟨c1, h1, h2⟩
    rw [tag_len h2, line_ending_if_needed_len h1]
  · cases h; rfl

theorem len_on_enter_resource {c c' : CompileContext}
    (h : on_enter_resource c = some c') : c'.buffers.length = c.buffers.length + 1 := by
  unfold on_enter_resource at h
  rw [withTopMedia_buffers h]
  exact buffer_len c

theorem len_on_enter_resource_destination_string {c c' : CompileContext}
    (h : on_enter_resource_destination_string c = some c') :
    c'.buffers.length = c.buffers.length + 1 := by
  cases h; simp [CompileContext.buffer]

theorem len_on_enter_strong {c c' : CompileContext}
    (h : on_enter_strong c = some c') : c'.buffers.length = c.buffers.length :=
  tag_len h
theorem len_on_exit_drop {c c' : CompileContext} (h : on_exit_drop c = some c') :
    c.buffers.length = c'.buffers.length + 1 := by
  unfold on_exit_drop at h
  rcases Option.map_eq_some'.mp h with ⟨⟨buf, c1⟩, h1, rfl⟩
  exact resume_len h1

theorem len_on_exit_data {events : List Event} {codes : List Code} {c c' : CompileContext}
    (h : on_exit_data events codes c = some c') : c'.buffers.length = c.buffers.length :=
  push_raw_len h

theorem len_on_exit_autolink_email {events : List Event} {codes : List Code}
    {c c' : CompileContext} (h : on_exit_autolink_email events codes c = some c') :
    c'.buffers.length = c.buffers.length := by
  unfold on_exit_autolink_email at h
  rcases Option.bind_eq_some.mp h with ⟨c2, h2, h3⟩
  rcases Option.bind_eq_some.mp h2 with ⟨c1, h1, h4⟩
  rw [tag_len h3, push_raw_len h4, tag_len h1]

theorem len_on_exit_autolink_protocol {events : List Event} {codes : List Code}
    {c c' : CompileContext} (h : on_exit_autolink_protocol events codes c = some c') :
    c'.buffers.length = c.buffers.length := by
  unfold on_exit_autolink_protocol at h
  rcases Option.bind_eq_some.mp h with ⟨c2, h2, h3⟩
  rcases Option.bind_eq_some.mp h2 with ⟨c1, h1, h4⟩
  rw [tag_len h3, push_raw_len h4, tag_len h1]

theorem len_on_exit_break {c c' : CompileContext} (h : on_exit_break c = some c') :
    c'.buffers.length = c.buffers.length :=
  tag_len h

theorem len_on_exit_blank_line_ending {events : List Event} {c c' : CompileContext}
    (h : on_exit_blank_line_ending events c = some c') :
    c'.buffers.length = c.buffers.length := by
  unfold on_exit_blank_line_ending at h
  split at h
  · exact line_ending_if_needed_len h
  · cases h; rfl

theorem len_on_exit_block_quote {c c' : CompileContext}
    (h : on_exit_block_quote c = some c') : c'.buffers.length = c.buffers.length := by
  unfold on_exit_block_quote at h
  rcases Option.bind_eq_some.mp h with ⟨c1, h1, h2⟩
  have e1 := line_ending_if_needed_len h1
  have e2 := tag_len h2
  dsimp only at e1 e2
  omega

theorem len_on_exit_character_reference_marker {c c' : CompileContext}
    (h : on_exit_character_reference_marker c = some c') :
    c'.buffers.length = c.buffers.length := by
  cases h; rfl

theorem len_on_exit_character_reference_marker_hexadecimal {c c' : CompileContext}
    (h : on_exit_character_reference_marker_hexadecimal c = some c') :
    c'.buffers.length = c.buffers.length := by
  cases h; rfl

theorem len_on_exit_character_reference_marker_numeric {c c' : CompileContext}
    (h : on_exit_character_reference_marker_numeric c = some c') :
    c'.buffers.length = c.buffers.length := by
  cases h; rfl

theorem len_on_exit_character_reference_value {events : List Event} {codes : List Code}
    {c c' : CompileContext} (h : on_exit_character_reference_value events codes c = some c') :
    c'.buffers.length = c.buffers.length := by
  unfold on_exit_character_reference_value at h
  split at h
  · simp at h
  · simpa using push_raw_len h

theorem len_on_exit_code_flow_chunk {events : List Event} {codes : List Code}
    {c c' : CompileContext} (h : on_exit_code_flow_chunk events codes c = some c') :
    c'.buffers.length = c.buffers.length := by
  unfold on_exit_code_flow_chunk at h
  simpa using push_raw_len h

theorem len_on_exit_code_fenced_fence {c c' : CompileContext}
    (h : on_exit_code_fenced_fence c = some c') : c'.buffers.length = c.buffers.length := by
  simp only [on_exit_code_fenced_fence] at h
  rcases Option.map_eq_some'.mp h with ⟨c1, h1, rfl⟩
  split at h1
  · rcases Option.map_eq_some'.mp h1 with ⟨c0, h0, rfl⟩
    simpa using tag_len h0
  · cases h1; rfl

theorem len_on_exit_code_fenced_fence_info {c c' : CompileContext}
    (h : on_exit_code_fenced_fence_info c = some c') :
    c.buffers.length = c'.buffers.length + 1 := by
  unfold on_exit_code_fenced_fence_info at h
  split at h
  · simp at h
  · rename_i buf c1 heq
    rw [resume_len heq, tag_len h]

theorem len_on_exit_code_flow {c c' : CompileContext}
    (h : on_exit_code_flow c = some c') : c'.buffers.length = c.buffers.length := by
  unfold on_exit_code_flow at h
  split at h
  · simp at h
  · rcases Option.bind_eq_some.mp h with ⟨c3, hABC, hD⟩
    rcases Option.bind_eq_some.mp hABC with ⟨c2, hAB, hC⟩
    rcases Option.bind_eq_some.mp hAB with ⟨c1, hA, hB⟩
    have e1 : c1.buffers.length = c.buffers.length := by
      split at hA
      · split at hA
        · simpa using line_ending_len hA
        · cases hA; rfl
      · cases hA; rfl
    have e2 : c2.buffers.length = c1.buffers.length := by
      split at hB
      · exact line_ending_if_needed_len hB
      · cases hB; rfl
    have e3 : c3.buffers.length = c2.buffers.length := tag_len hC
    rcases Option.map_eq_some'.mp hD with ⟨c4, h4, rfl⟩
    have e4 : c4.buffers.length = c3.buffers.length := by
      split at h4
      · split at h4
        · simpa using line_ending_if_needed_len h4
        · cases h4; rfl
      · cases h4; rfl
    simpa using (e4.trans (e3.trans (e2.trans e1)))

theorem len_on_exit_code_text {c c' : CompileContext}
    (h : on_exit_code_text c = some c') : c.buffers.length = c'.buffers.length + 1 := by
  unfold on_exit_code_text at h
  split at h
  · simp at h
  · rename_i result c1 heq
    rcases Option.bind_eq_some.mp h with ⟨c2, h2, h3⟩
    have e2 : c2.buffers.length = c1.buffers.length := by simpa using push_len h2
    rw [resume_len heq, tag_len h3, e2]

theorem len_on_exit_definition {c c' : CompileContext}
    (h : on_exit_definition c = some c') : c.buffers.length = c'.buffers.length + 1 := by
  simp only [on_exit_definition] at h
  split at h
  · simp at h
  · split at h
    · simp at h
    · split at h
      · simp at h
      · rename_i heq
        have e1 := resume_len heq
        split at h <;> cases h <;> simpa using e1
theorem len_on_exit_definition_destination_string {c c' : CompileContext}
    (h : on_exit_definition_destination_string c = some c') :
    c.buffers.length = c'.buffers.length + 1 := by
  unfold on_exit_definition_destination_string at h
  split at h
  · simp at h
  · rename_i buf c1 heq
    rcases Option.map_eq_some'.mp h with ⟨c2, h2, rfl⟩
    have e2 := withTopMedia_buffers h2
    rw [resume_len heq]
    simp [e2]

theorem len_on_exit_definition_label_string {events : List Event} {codes : List Code}
    {c c' : CompileContext} (h : on_exit_definition_label_string events codes c = some c') :
    c.buffers.length = c'.buffers.length + 1 := by
  unfold on_exit_definition_label_string at h
  split at h
  · simp at h
  · rename_i buf c1 heq
    rw [resume_len heq, withTopMedia_buffers h]

theorem len_on_exit_definition_title_string {c c' : CompileContext}
    (h : on_exit_definition_title_string c = some c') :
    c.buffers.length = c'.buffers.length + 1 := by
  unfold on_exit_definition_title_string at h
  split at h
  · simp at h
  · rename_i buf c1 heq
    rw [resume_len heq, withTopMedia_buffers h]

theorem len_on_exit_emphasis {c c' : CompileContext} (h : on_exit_emphasis c = some c') :
    c'.buffers.length = c.buffers.length :=
  tag_len h

theorem len_on_exit_heading_atx {c c' : CompileContext}
    (h : on_exit_heading_atx c = some c') : c'.buffers.length = c.buffers.length := by
  unfold on_exit_heading_atx at h
  split at h
  · simp at h
  · have := tag_len h
    dsimp only at this
    omega

theorem len_on_exit_heading_atx_sequence {events : List Event} {codes : List Code}
    {c c' : CompileContext} (h : on_exit_heading_atx_sequence events codes c = some c') :
    c'.buffers.length = c.buffers.length := by
  simp only [on_exit_heading_atx_sequence] at h
  split at h
  · rcases Option.bind_eq_some.mp h with ⟨c1, h1, h2⟩
    have e1 := line_ending_if_needed_len h1
    have e2 := tag_len h2
    dsimp only at e1 e2
    omega
  · cases h; rfl

theorem len_on_exit_heading_atx_text {c c' : CompileContext}
    (h : on_exit_heading_atx_text c = some c') : c.buffers.length = c'.buffers.length + 1 := by
  unfold on_exit_heading_atx_text at h
  split at h
  · simp at h
  · rename_i buf c1 heq
    rw [resume_len heq, push_len h]

theorem len_on_exit_heading_setext_text {c c' : CompileContext}
    (h : on_exit_heading_setext_text c = some c') :
    c.buffers.length = c'.buffers.length + 1 := by
  unfold on_exit_heading_setext_text at h
  rcases Option.map_eq_some'.mp h with ⟨⟨buf, c1⟩, h1, rfl⟩
  have := resume_len h1
  dsimp only
  omega

theorem len_on_exit_heading_setext_underline {events : List Event} {codes : List Code}
    {c c' : CompileContext} (h : on_exit_heading_setext_underline events codes c = some c') :
    c'.buffers.length = c.buffers.length := by
  simp only [on_exit_heading_setext_underline] at h
  split at h
  · simp at h
  · split at h
    · simp at h
    · rcases Option.bind_eq_some.mp h with ⟨c3, h3, h4⟩
      rcases Option.bind_eq_some.mp h3 with ⟨c2, h2, h5⟩
      rcases Option.bind_eq_some.mp h2 with ⟨c1, h1, h6⟩
      have e1 := line_ending_if_needed_len h1
      have e2 := tag_len h6
      have e3 := push_len h5
      have e4 := tag_len h4
      dsimp only at e1 e2 e3 e4
      omega

theorem len_on_exit_html {c c' : CompileContext} (h : on_exit_html c = some c') :
    c'.buffers.length = c.buffers.length := by
  cases h; rfl

theorem len_on_exit_html_data {events : List Event} {codes : List Code}
    {c c' : CompileContext} (h : on_exit_html_data events codes c = some c') :
    c'.buffers.length = c.buffers.length :=
  push_raw_len h

theorem len_on_exit_label {c c' : CompileContext} (h : on_exit_label c = some c') :
    c.buffers.length = c'.buffers.length + 1 := by
  unfold on_exit_label at h
  split at h
  · simp at h
  · rename_i buf c1 heq
    rw [resume_len heq, withTopMedia_buffers h]

theorem len_on_exit_label_text {events : List Event} {codes : List Code}
    {c c' : CompileContext} (h : on_exit_label_text events codes c = some c') :
    c'.buffers.length = c.buffers.length := by
  rw [withTopMedia_buffers h]

theorem len_on_exit_line_ending {events : List Event} {codes : List Code}
    {c c' : CompileContext} (h : on_exit_line_ending events codes c = some c') :
    c'.buffers.length = c.buffers.length := by
  unfold on_exit_line_ending at h
  split at h
  · exact push_len h
  · split at h
    · cases h; rfl
    · exact push_raw_len h

theorem len_on_exit_list {events : List Event} {c c' : CompileContext}
    (h : on_exit_list events c = some c') : c'.buffers.length = c.buffers.length := by
  unfold on_exit_list at h
  split at h
  · simp at h
  · rcases Option.bind_eq_some.mp h with ⟨c1, h1, h2⟩
    have e1 := line_ending_len h1
    have e2 := tag_len h2
    dsimp only at e1 e2
    omega

theorem len_on_exit_list_item {events : List Event} {c c' : CompileContext}
    (h : on_exit_list_item events c = some c') : c'.buffers.length = c.buffers.length := by
  simp only [on_exit_list_item] at h
  rcases Option.bind_eq_some.mp h with ⟨c1, h1, h2⟩
  have e2 := tag_len h2
  have e1 : c1.buffers.length = c.buffers.length := by
    split at h1
    · have := line_ending_if_needed_len h1
      dsimp only at this
      omega
    · cases h1; rfl
  omega

theorem len_on_exit_list_item_value {events : List Event} {codes : List Code}
    {c c' : CompileContext} (h : on_exit_list_item_value events codes c = some c') :
    c'.buffers.length = c.buffers.length := by
  simp only [on_exit_list_item_value] at h
  split at h
  · simp at h
  · split at h
    · split at h
      · simp at h
      · split at h
        · simp at h
        · split at h
          · rcases Option.bind_eq_some.mp h with ⟨c2, h2, h3⟩
            rcases Option.bind_eq_some.mp h2 with ⟨c1, h1, h4⟩
            rw [tag_len h3, tag_len h4, tag_len h1]
          · cases h; rfl
    · cases h; rfl
theorem len_on_exit_media {c c' : CompileContext} (h : on_exit_media c = some c') :
    c'.buffers.length = c.buffers.length := by
  simp only [on_exit_media] at h
  split at h
  · simp at h
  · split at h
    · simp at h
    · split at h
      · split at h
        · rcases Option.bind_eq_some.mp h with ⟨c2, h2, h3⟩
          rcases Option.bind_eq_some.mp h2 with ⟨c1, h1, h4⟩
          have e1 := tag_len h1
          have e2 := push_len h4
          have e3 := tag_len h3
          dsimp only at e1 e2 e3
          omega
        · rcases Option.bind_eq_some.mp h with ⟨c2, h2, h3⟩
          rcases Option.bind_eq_some.mp h2 with ⟨c1, h1, h4⟩
          have e1 := tag_len h1
          have e2 := push_len h4
          have e3 := tag_len h3
          dsimp only at e1 e2 e3
          omega
      · simp at h

theorem len_on_exit_paragraph {c c' : CompileContext}
    (h : on_exit_paragraph c = some c') : c'.buffers.length = c.buffers.length := by
  simp only [on_exit_paragraph] at h
  split at h
  · cases h; rfl
  · exact tag_len h

theorem len_on_exit_reference_string {events : List Event} {codes : List Code}
    {c c' : CompileContext} (h : on_exit_reference_string events codes c = some c') :
    c.buffers.length = c'.buffers.length + 1 := by
  unfold on_exit_reference_string at h
  split at h
  · simp at h
  · rename_i buf c1 heq
    rw [resume_len heq, withTopMedia_buffers h]

theorem len_on_exit_resource_destination_string {c c' : CompileContext}
    (h : on_exit_resource_destination_string c = some c') :
    c.buffers.length = c'.buffers.length + 1 := by
  unfold on_exit_resource_destination_string at h
  split at h
  · simp at h
  · rename_i buf c1 heq
    rcases Option.map_eq_some'.mp h with ⟨c2, h2, rfl⟩
    have e2 := withTopMedia_buffers h2
    rw [resume_len heq]
    simp [e2]

theorem len_on_exit_resource_title_string {c c' : CompileContext}
    (h : on_exit_resource_title_string c = some c') :
    c.buffers.length = c'.buffers.length + 1 := by
  unfold on_exit_resource_title_string at h
  split at h
  · simp at h
  · rename_i buf c1 heq
    rw [resume_len heq, withTopMedia_buffers h]

theorem len_on_exit_strong {c c' : CompileContext} (h : on_exit_strong c = some c') :
    c'.buffers.length = c.buffers.length :=
  tag_len h

theorem len_on_exit_thematic_break {c c' : CompileContext}
    (h : on_exit_thematic_break c = some c') : c'.buffers.length = c.buffers.length := by
  unfold on_exit_thematic_break at h
  rcases Option.bind_eq_some.mp h with ⟨c1, h1, h2⟩
  rw [tag_len h2, line_ending_if_needed_len h1]
theorem enter_len {events : List Event} {codes : List Code} {c c' : CompileContext}
    {e : Event} (he : events[c.index]? = some e) (h : enter events codes c = some c') :
    (c'.buffers.length : Int) =
      c.buffers.length + (if bufferedToken e.token_type then 1 else 0) := by
  unfold enter at h
  rw [he] at h
  rcases e with ⟨ph, t, s0, s1⟩
  dsimp only at h ⊢
  cases t
  case codeFencedFenceInfo => have e1 := len_on_enter_buffer h; simp [bufferedToken]; omega
  case codeFencedFenceMeta => have e1 := len_on_enter_buffer h; simp [bufferedToken]; omega
  case definitionLabelString => have e1 := len_on_enter_buffer h; simp [bufferedToken]; omega
  case definitionTitleString => have e1 := len_on_enter_buffer h; simp [bufferedToken]; omega
  case headingAtxText => have e1 := len_on_enter_buffer h; simp [bufferedToken]; omega
  case headingSetextText => have e1 := len_on_enter_buffer h; simp [bufferedToken]; omega
  case label => have e1 := len_on_enter_buffer h; simp [bufferedToken]; omega
  case referenceString => have e1 := len_on_enter_buffer h; simp [bufferedToken]; omega
  case resourceTitleString => have e1 := len_on_enter_buffer h; simp [bufferedToken]; omega
  case blockQuote => have e1 := len_on_enter_block_quote h; simp [bufferedToken]; omega
  case codeIndented => have e1 := len_on_enter_code_indented h; simp [bufferedToken]; omega
  case codeFenced => have e1 := len_on_enter_code_fenced h; simp [bufferedToken]; omega
  case codeText => have e1 := len_on_enter_code_text h; simp [bufferedToken]; omega
  case definition => have e1 := len_on_enter_definition h; simp [bufferedToken]; omega
  case definitionDestinationString => have e1 := len_on_enter_definition_destination_string h; simp [bufferedToken]; omega
  case emphasis => have e1 := len_on_enter_emphasis h; simp [bufferedToken]; omega
  case htmlFlow => have e1 := len_on_enter_html_flow h; simp [bufferedToken]; omega
  case htmlText => have e1 := len_on_enter_html_text h; simp [bufferedToken]; omega
  case image => have e1 := len_on_enter_image h; simp [bufferedToken]; omega
  case link => have e1 := len_on_enter_link h; simp [bufferedToken]; omega
  case listItemMarker => have e1 := len_on_enter_list_item_marker h; simp [bufferedToken]; omega
  case listOrdered => have e1 := len_on_enter_list h; simp [bufferedToken]; omega
  case listUnordered => have e1 := len_on_enter_list h; simp [bufferedToken]; omega
  case paragraph => have e1 := len_on_enter_paragraph h; simp [bufferedToken]; omega
  case resource => have e1 := len_on_enter_resource h; simp [bufferedToken]; omega
  case resourceDestinationString => have e1 := len_on_enter_resource_destination_string h; simp [bufferedToken]; omega
  case strong => have e1 := len_on_enter_strong h; simp [bufferedToken]; omega
  all_goals (cases h; simp [bufferedToken])

theorem exit_len {events : List Event} {codes : List Code} {c c' : CompileContext}
    {e : Event} (he : events[c.index]? = some e) (h : exit events codes c = some c') :
    (c'.buffers.length : Int) =
      c.buffers.length + (if bufferedToken e.token_type then -1 else 0) := by
  unfold exit at h
  rw [he] at h
  rcases e with ⟨ph, t, s0, s1⟩
  dsimp only at h ⊢
  cases t
  case autolinkEmail => have e1 := len_on_exit_autolink_email h; simp [bufferedToken]; omega
  case autolinkProtocol => have e1 := len_on_exit_autolink_protocol h; simp [bufferedToken]; omega
  case blankLineEnding => have e1 := len_on_exit_blank_line_ending h; simp [bufferedToken]; omega
  case blockQuote => have e1 := len_on_exit_block_quote h; simp [bufferedToken]; omega
  case characterEscapeValue => have e1 := len_on_exit_data h; simp [bufferedToken]; omega
  case characterReferenceMarker => have e1 := len_on_exit_character_reference_marker h; simp [bufferedToken]; omega
  case characterReferenceMarkerHexadecimal => have e1 := len_on_exit_character_reference_marker_hexadecimal h; simp [bufferedToken]; omega
  case characterReferenceMarkerNumeric => have e1 := len_on_exit_character_reference_marker_numeric h; simp [bufferedToken]; omega
  case characterReferenceValue => have e1 := len_on_exit_character_reference_value h; simp [bufferedToken]; omega
  case codeFenced => have e1 := len_on_exit_code_flow h; simp [bufferedToken]; omega
  case codeFencedFence => have e1 := len_on_exit_code_fenced_fence h; simp [bufferedToken]; omega
  case codeFencedFenceInfo => have e1 := len_on_exit_code_fenced_fence_info h; simp [bufferedToken]; omega
  case codeFencedFenceMeta => have e1 := len_on_exit_drop h; simp [bufferedToken]; omega
  case codeFlowChunk => have e1 := len_on_exit_code_flow_chunk h; simp [bufferedToken]; omega
  case codeIndented => have e1 := len_on_exit_code_flow h; simp [bufferedToken]; omega
  case codeText => have e1 := len_on_exit_code_text h; simp [bufferedToken]; omega
  case codeTextData => have e1 := len_on_exit_data h; simp [bufferedToken]; omega
  case data => have e1 := len_on_exit_data h; simp [bufferedToken]; omega
  case definition => have e1 := len_on_exit_definition h; simp [bufferedToken]; omega
  case definitionDestinationString => have e1 := len_on_exit_definition_destination_string h; simp [bufferedToken]; omega
  case definitionLabelString => have e1 := len_on_exit_definition_label_string h; simp [bufferedToken]; omega
  case definitionTitleString => have e1 := len_on_exit_definition_title_string h; simp [bufferedToken]; omega
  case emphasis => have e1 := len_on_exit_emphasis h; simp [bufferedToken]; omega
  case hardBreakEscape => have e1 := len_on_exit_break h; simp [bufferedToken]; omega
  case hardBreakTrailing => have e1 := len_on_exit_break h; simp [bufferedToken]; omega
  case headingAtx => have e1 := len_on_exit_heading_atx h; simp [bufferedToken]; omega
  case headingAtxSequence => have e1 := len_on_exit_heading_atx_sequence h; simp [bufferedToken]; omega
  case headingAtxText => have e1 := len_on_exit_heading_atx_text h; simp [bufferedToken]; omega
  case headingSetextText => have e1 := len_on_exit_heading_setext_text h; simp [bufferedToken]; omega
  case headingSetextUnderline => have e1 := len_on_exit_heading_setext_underline h; simp [bufferedToken]; omega
  case htmlFlow => have e1 := len_on_exit_html h; simp [bufferedToken]; omega
  case htmlFlowData => have e1 := len_on_exit_html_data h; simp [bufferedToken]; omega
  case htmlText => have e1 := len_on_exit_html h; simp [bufferedToken]; omega
  case htmlTextData => have e1 := len_on_exit_html_data h; simp [bufferedToken]; omega
  case image => have e1 := len_on_exit_media h; simp [bufferedToken]; omega
  case label => have e1 := len_on_exit_label h; simp [bufferedToken]; omega
  case labelText => have e1 := len_on_exit_label_text h; simp [bufferedToken]; omega
  case lineEnding => have e1 := len_on_exit_line_ending h; simp [bufferedToken]; omega
  case link => have e1 := len_on_exit_media h; simp [bufferedToken]; omega
  case listItem => have e1 := len_on_exit_list_item h; simp [bufferedToken]; omega
  case listItemValue => have e1 := len_on_exit_list_item_value h; simp [bufferedToken]; omega
  case listOrdered => have e1 := len_on_exit_list h; simp [bufferedToken]; omega
  case listUnordered => have e1 := len_on_exit_list h; simp [bufferedToken]; omega
  case paragraph => have e1 := len_on_exit_paragraph h; simp [bufferedToken]; omega
  case referenceString => have e1 := len_on_exit_reference_string h; simp [bufferedToken]; omega
  case resource => have e1 := len_on_exit_drop h; simp [bufferedToken]; omega
  case resourceDestinationString => have e1 := len_on_exit_resource_destination_string h; simp [bufferedToken]; omega
  case resourceTitleString => have e1 := len_on_exit_resource_title_string h; simp [bufferedToken]; omega
  case strong => have e1 := len_on_exit_strong h; simp [bufferedToken]; omega
  case thematicBreak => have e1 := len_on_exit_thematic_break h; simp [bufferedToken]; omega
  all_goals (cases h; simp [bufferedToken])
theorem handleOne_len {events : List Event} {codes : List Code} {c : CompileContext}
    {i : Nat} {c' : CompileContext} (h : handleOne events codes c i = some c') :
    (c'.buffers.length : Int) = c.buffers.length + buffer_delta_at events i := by
  unfold handleOne at h
  split at h
  · simp at h
  · rename_i e he
    rw [buffer_delta_at, he]
    cases hph : e.event_type
    · rw [hph] at h
      simp only [beq_self_eq_true, if_true] at h
      have e2 := @enter_len events codes { c with index := i } c' e he h
      cases hbt : bufferedToken e.token_type <;>
        simp [buffer_delta, hph, hbt] at e2 ⊢ <;> omega
    · rw [hph] at h
      simp only [show (EventType.exit == EventType.enter) = false from rfl,
        Bool.false_eq_true, if_false] at h
      have e2 := @exit_len events codes { c with index := i } c' e he h
      cases hbt : bufferedToken e.token_type <;>
        simp [buffer_delta, hph, hbt] at e2 ⊢ <;> omega

theorem runIndices_len {events : List Event} {codes : List Code} :
    ∀ (ixs : List Nat) (c c' : CompileContext),
      runIndices events codes c ixs = some c' →
      (c'.buffers.length : Int) =
        c.buffers.length + ((ixs.map (buffer_delta_at events)).sum) := by
  intro ixs
  induction ixs with
  | nil => intro c c' h; cases h; simp
  | cons i rest ih =>
    intro c c' h
    simp only [runIndices] at h
    rcases Option.bind_eq_some.mp h with ⟨c1, h1, h2⟩
    have e1 := handleOne_len h1
    have e2 := ih c1 c' h2
    simp only [List.map_cons, List.sum_cons]
    omega

theorem runIndices_append {events : List Event} {codes : List Code} :
    ∀ (p q : List Nat) (c c' : CompileContext),
      runIndices events codes c (p ++ q) = some c' →
      ∃ cp, runIndices events codes c p = some cp ∧
        runIndices events codes cp q = some c' := by
  intro p
  induction p with
  | nil => intro q c c' h; exact ⟨c, rfl, h⟩
  | cons i rest ih =>
    intro q c c' h
    simp only [List.cons_append, runIndices] at h
    rcases Option.bind_eq_some.mp h with ⟨c1, h1, h2⟩
    rcases ih q c1 c' h2 with ⟨cp, hp, hq⟩
    refine ⟨cp, ?_, hq⟩
    simp only [runIndices, h1]
    exact hp

/-- C9: the buffer stack starts as a single empty string; each handled
event changes its size by exactly the balanced delta of its token (a push
on the enter of a buffered construct, the matching pop on its exit, zero
otherwise); over any run the size is the start size plus the sum of the
deltas, so under balanced prefixes the stack is never empty; and the final
assert returns the sole remaining buffer as the compiled HTML. -/
theorem buffer_stack_discipline :
    (∀ (options : Options) (le : LineEnding),
      (CompileContext.new options le).buffers = [""]) ∧
    (∀ (events : List Event) (codes : List Code) (c : CompileContext) (i : Nat)
       (c' : CompileContext),
      handleOne events codes c i = some c' →
      (c'.buffers.length : Int) = c.buffers.length + buffer_delta_at events i) ∧
    (∀ (events : List Event) (codes : List Code) (c : CompileContext)
       (p q : List Nat) (c' : CompileContext),
      runIndices events codes c (p ++ q) = some c' →
      ∃ cp, runIndices events codes c p = some cp ∧
        (cp.buffers.length : Int) =
          c.buffers.length + ((p.map (buffer_delta_at events)).sum)) ∧
    (∀ (events : List Event) (codes : List Code) (c : CompileContext)
       (ixs : List Nat) (c' : CompileContext),
      runIndices events codes c ixs = some c' →
      c.buffers.length = 1 →
      (∀ p q, ixs = p ++ q → 0 ≤ ((p.map (buffer_delta_at events)).sum)) →
      ∀ p q, ixs = p ++ q →
        ∃ cp, runIndices events codes c p = some cp ∧ cp.buffers ≠ []) ∧
    (∀ (c : CompileContext) (s : String), compileFinish c = some s → c.buffers = [s]) := by
  refine ⟨fun options le => rfl, fun _ _ _ _ _ h => handleOne_len h, ?_, ?_, ?_⟩
  · intro events codes c p q c' h
    rcases runIndices_append p q c c' h with ⟨cp, hp, _⟩
    exact ⟨cp, hp, runIndices_len p c cp hp⟩
  · intro events codes c ixs c' hrun hone hbal p q hpq
    subst hpq
    rcases runIndices_append p q c c' hrun with ⟨cp, hp, _⟩
    have hl := runIndices_len p c cp hp
    have hb := hbal p q rfl
    refine ⟨cp, hp, ?_⟩
    intro hemp
    rw [hemp] at hl
    simp [hone] at hl
    omega
  · intro c s h
    unfold compileFinish at h
    split at h
    · rename_i b heq
      cases h
      exact heq
    · simp at h
theorem buffer_stack_discipline_witness :
    (CompileContext.new Options.default LineEnding.lineFeed).buffers = [""] ∧
    (c9res.buffers.length : Int) =
      sampleCtx.buffers.length + buffer_delta_at codeTextExampleEvents 0 ∧
    (∃ cp, runIndices codeTextExampleEvents codeTextExampleCodes sampleCtx [0] = some cp ∧
      (cp.buffers.length : Int) =
        sampleCtx.buffers.length + (([0].map (buffer_delta_at codeTextExampleEvents)).sum)) ∧
    ({ sampleCtx with buffers := ["done"] } : CompileContext).buffers = ["done"] :=
  ⟨buffer_stack_discipline.1 Options.default LineEnding.lineFeed,
   buffer_stack_discipline.2.1 codeTextExampleEvents codeTextExampleCodes sampleCtx 0 c9res
     (by decide),
   buffer_stack_discipline.2.2.1 codeTextExampleEvents codeTextExampleCodes sampleCtx [0] []
     c9res (by decide),
   buffer_stack_discipline.2.2.2.2 { sampleCtx with buffers := ["done"] } "done" rfl⟩

-- END OF FILE



